import Mathlib

/-!
# gammu-json: text-encoding core (`encoding.c`)

A shallow embedding of the scanner, the GSM-alphabet classifier and the
JSON-safe transcoder of `encoding.c`, together with proofs of their
specification.

Conventions of the embedding:

* a C buffer (`const char *`) is a `List Nat` of byte values `0..255` (the
  bit patterns of the `char`s); a pointer into the buffer is the suffix of
  the list that starts at the pointed byte, so `p[0]`, `p[1]` are the first
  two elements of the suffix and `p += 2` drops two elements;
* a read outside the buffer makes the function return `none`;
* `size_t` counters are `Nat` (a buffer never holds `2^64` bytes);
* loops with a data-dependent number of iterations take a fuel argument,
  one unit of fuel per iteration.
-/

namespace GammuJson

/-! ## Data model (`encoding.h`) -/

/-- The enumeration `string_decode_error_t`. -/
inductive string_decode_error_t where
  | D_ERR_NONE
  | D_ERR_UNMATCHED_SURROGATE
  | D_ERR_UNEXPECTED_SURROGATE
  | D_ERR_UNKNOWN
  deriving DecidableEq, Repr

open string_decode_error_t

/-- The structure `string_info_t`. -/
structure string_info_t where
  bytes : Nat
  units : Nat
  symbols : Nat
  error_offset : Nat
  invalid_bytes : Nat
  error : string_decode_error_t
  deriving DecidableEq, Repr

/-- The constant `utf16_surrogate_first`. -/
def utf16_surrogate_first : Nat := 0xd800

/-- The constant `utf16_surrogate_middle`. -/
def utf16_surrogate_middle : Nat := 0xdc00

/-- The constant `utf16_surrogate_last`. -/
def utf16_surrogate_last : Nat := 0xdfff

/-! ## `utf16be_string_info` -/

/-- The macro `record_error(i, e)`: two more invalid bytes; the kind and the
offset are stored only while no error has been stored yet. -/
def record_error (i : string_info_t) (e : string_decode_error_t) : string_info_t :=
  let i1 := { i with invalid_bytes := i.invalid_bytes + 2 }
  if i1.error = D_ERR_NONE then { i1 with error := e, error_offset := i1.bytes } else i1

/-- The tail of the loop body of `utf16be_string_info` (the `Done` part):
`i->units++; i->bytes += 2` (the pointer is advanced by the caller). -/
def scan_done (i : string_info_t) : string_info_t :=
  { i with units := i.units + 1, bytes := i.bytes + 2 }

/-- The initial values that `utf16be_string_info` and `utf8_string_info`
store in `*i`. -/
def string_info_init : string_info_t :=
  { bytes := 0, units := 0, symbols := 0, error_offset := 0, invalid_bytes := 0,
    error := D_ERR_NONE }

/-- The reassembled unit `(p[0] << 8) | (uint8_t) p[1]`, truncated to
`uint16_t`; on byte values this is the big-endian 16-bit unit, whether `char`
is signed or not. -/
def utf16be_unit (b0 b1 : Nat) : Nat := ((b0 <<< 8) ||| b1) % 65536

/-- The `for (;;)` loop of `utf16be_string_info`. `p` is the pointer, the
result is the state `(in_surrogate, *i)` on arrival at the label `finished`.
`none`: a read outside the buffer, or the fuel (one unit per iteration) is
used up. -/
def utf16be_scan_loop : Nat → List Nat → Bool → string_info_t → Option (Bool × string_info_t)
  | 0, _, _, _ => none
  | fuel + 1, p, in_surrogate, i =>
    match p with
    | b0 :: b1 :: rest =>
      let v := utf16be_unit b0 b1
      if v = 0 then
        some (in_surrogate, i)
      else if !in_surrogate then
        if v < utf16_surrogate_first ∨ v > utf16_surrogate_last then
          utf16be_scan_loop fuel rest in_surrogate (scan_done { i with symbols := i.symbols + 1 })
        else if v < utf16_surrogate_middle then
          utf16be_scan_loop fuel rest true (scan_done i)
        else
          utf16be_scan_loop fuel rest in_surrogate (scan_done (record_error i D_ERR_UNEXPECTED_SURROGATE))
      else
        if v ≥ utf16_surrogate_middle ∧ v ≤ utf16_surrogate_last then
          utf16be_scan_loop fuel rest false (scan_done { i with symbols := i.symbols + 1 })
        else
          utf16be_scan_loop fuel p false (record_error i D_ERR_UNMATCHED_SURROGATE)
    | _ => none

/-- The block after the label `finished` of `utf16be_string_info`, up to the
subtraction: a pending lead surrogate is recorded as an error. -/
def scan_finished_record (in_surrogate : Bool) (i : string_info_t) : string_info_t :=
  if in_surrogate then record_error i D_ERR_UNMATCHED_SURROGATE else i

/-- The block after the label `finished` of `utf16be_string_info`: the
pending lead is recorded, the offset of an unmatched-surrogate error is moved
back by one unit, and the function returns `invalid_bytes == 0`. The
subtraction is the one of `Nat`; it agrees with the one of `size_t` because
the offset is at least 2 there (`scan_finished_no_underflow`). -/
def scan_finished (in_surrogate : Bool) (i : string_info_t) : Bool × string_info_t :=
  let i1 := scan_finished_record in_surrogate i
  let i2 := if i1.error = D_ERR_UNMATCHED_SURROGATE then
      { i1 with error_offset := i1.error_offset - 2 } else i1
  (decide (i2.invalid_bytes = 0), i2)

/-- The function `utf16be_string_info(s, i)`: the returned boolean and the
final `*i`. The loop gets `length s + 1` units of fuel, more than it can use
(`utf16be_scan_loop_fuel`). -/
def utf16be_string_info (s : List Nat) : Option (Bool × string_info_t) :=
  match utf16be_scan_loop (s.length + 1) s false string_info_init with
  | some (in_surrogate, i) => some (scan_finished in_surrogate i)
  | none => none

/-! ## `utf16be_is_gsm_codepoint`, `utf16be_is_gsm_string` -/

/-- The function `utf16be_is_gsm_codepoint(msb, lsb)`; both arguments are
`uint8_t` values. -/
def utf16be_is_gsm_codepoint (msb lsb : Nat) : Bool :=
  match msb with
  | 0x00 =>
    let rv : Bool :=
      (decide (lsb ≥ 0x20) && decide (lsb ≤ 0x5f))
        || (decide (lsb ≥ 0x61) && decide (lsb ≤ 0x7e))
        || (decide (lsb ≥ 0xa3) && decide (lsb ≤ 0xa5))
        || (decide (lsb ≥ 0xc4) && decide (lsb ≤ 0xc6))
        || (decide (lsb ≥ 0xe4) && decide (lsb ≤ 0xe9))
    if rv then
      true
    else
      match lsb with
      | 0x0a | 0x0c | 0x0d
      | 0xa0 | 0xa1 | 0xa7
      | 0xbf | 0xc9 | 0xd1
      | 0xd6 | 0xd8 | 0xdc
      | 0xdf | 0xe0 | 0xec
      | 0xf1 | 0xf2 | 0xf6
      | 0xf8 | 0xf9 | 0xfc => true
      | _ => false
  | 0x03 =>
    match lsb with
    | 0x93 | 0x94
    | 0x98 | 0x9b
    | 0x9e | 0xa0
    | 0xa3 | 0xa6
    | 0xa8 | 0xa9 => true
    | _ => false
  | 0x20 => decide (lsb = 0xac)
  | _ => false

/-- The `for (i = 0; i < si.units; ++i)` loop of `utf16be_is_gsm_string`; the
first argument is the number of iterations left, the second is `i`. The two
`char`s read are converted to `uint8_t` for the call. -/
def utf16be_is_gsm_loop (s : List Nat) : Nat → Nat → Option Bool
  | 0, _ => some true
  | n + 1, i =>
    match s[2 * i]?, s[2 * i + 1]? with
    | some msb, some lsb =>
      if !utf16be_is_gsm_codepoint (msb % 256) (lsb % 256) then some false
      else utf16be_is_gsm_loop s n (i + 1)
    | _, _ => none

/-- The function `utf16be_is_gsm_string(s)`. -/
def utf16be_is_gsm_string (s : List Nat) : Option Bool :=
  match utf16be_string_info s with
  | some (_, si) => utf16be_is_gsm_loop s si.units 0
  | none => none

/-! ## `utf8_string_info` -/

/-- The loop `while (*p++) { ... }` of `utf8_string_info`: the condition reads
the byte at `p` and moves `p` forward, so the body tests the byte that
follows the one the condition has just read. -/
def utf8_scan_loop : List Nat → string_info_t → Option string_info_t
  | [], _ => none
  | c :: p, i =>
    if c = 0 then
      some i
    else
      match p with
      | [] => none
      | d :: _ =>
        let i1 := if d &&& 0xc0 ≠ 0x80 then
            { i with symbols := i.symbols + 1, units := i.units + 1 } else i
        utf8_scan_loop p { i1 with bytes := i1.bytes + 1 }

/-- The function `utf8_string_info(str, i)`: the returned boolean (always
`TRUE`) and the final `*i`. -/
def utf8_string_info (str : List Nat) : Option (Bool × string_info_t) :=
  match utf8_scan_loop str string_info_init with
  | some i => some (true, i)
  | none => none

/-! ## The conversion primitive `iconv`

`iconv` belongs to the C library, not to this program; it is modelled as the
standard conversion between UTF-16BE and UTF-8, failing on ill-formed input
and on an output area that is too small. -/

/-- The UTF-8 bytes of the scalar value `c`. -/
def utf8_encode (c : Nat) : List Nat :=
  if c < 0x80 then [c]
  else if c < 0x800 then [0xc0 + c / 64, 0x80 + c % 64]
  else if c < 0x10000 then [0xe0 + c / 4096, 0x80 + c / 64 % 64, 0x80 + c % 64]
  else [0xf0 + c / 262144, 0x80 + c / 4096 % 64, 0x80 + c / 64 % 64, 0x80 + c % 64]

/-- The UTF-16BE bytes of the scalar value `c`. -/
def utf16be_encode (c : Nat) : List Nat :=
  if c < 0x10000 then [c / 256, c % 256]
  else
    let hi := 0xd800 + (c - 0x10000) / 1024
    let lo := 0xdc00 + (c - 0x10000) % 1024
    [hi / 256, hi % 256, lo / 256, lo % 256]

/-- Standard UTF-16BE to UTF-8 conversion of a whole byte sequence; `none` on
an unpaired surrogate or an odd number of bytes. -/
def iconv_utf16be_to_utf8 : List Nat → Option (List Nat)
  | [] => some []
  | [_] => none
  | b0 :: b1 :: rest =>
    let u := b0 * 256 + b1
    if u < 0xd800 ∨ u > 0xdfff then
      (iconv_utf16be_to_utf8 rest).map (fun t => utf8_encode u ++ t)
    else if u < 0xdc00 then
      match rest with
      | c0 :: c1 :: rest2 =>
        let w := c0 * 256 + c1
        if 0xdc00 ≤ w ∧ w ≤ 0xdfff then
          (iconv_utf16be_to_utf8 rest2).map
            (fun t => utf8_encode (0x10000 + (u - 0xd800) * 1024 + (w - 0xdc00)) ++ t)
        else none
      | _ => none
    else none

/-- Whether `b` is a UTF-8 continuation byte. -/
def utf8_is_continuation (b : Nat) : Bool := decide (0x80 ≤ b) && decide (b < 0xc0)

/-- Standard UTF-8 to UTF-16BE conversion of a whole byte sequence; `none` on
ill-formed UTF-8 (stray or missing continuation bytes, overlong forms,
encoded surrogates, values above U+10FFFF). -/
def iconv_utf8_to_utf16be : List Nat → Option (List Nat)
  | [] => some []
  | b0 :: rest =>
    if b0 < 0x80 then
      (iconv_utf8_to_utf16be rest).map (fun t => utf16be_encode b0 ++ t)
    else if b0 < 0xc2 then none
    else if b0 < 0xe0 then
      match rest with
      | b1 :: rest1 =>
        if utf8_is_continuation b1 then
          (iconv_utf8_to_utf16be rest1).map
            (fun t => utf16be_encode ((b0 - 0xc0) * 64 + (b1 - 0x80)) ++ t)
        else none
      | _ => none
    else if b0 < 0xf0 then
      match rest with
      | b1 :: b2 :: rest2 =>
        let c := (b0 - 0xe0) * 4096 + (b1 - 0x80) * 64 + (b2 - 0x80)
        if utf8_is_continuation b1 ∧ utf8_is_continuation b2 ∧ 0x800 ≤ c
            ∧ (c < 0xd800 ∨ 0xdfff < c) then
          (iconv_utf8_to_utf16be rest2).map (fun t => utf16be_encode c ++ t)
        else none
      | _ => none
    else if b0 < 0xf5 then
      match rest with
      | b1 :: b2 :: b3 :: rest3 =>
        let c := (b0 - 0xf0) * 262144 + (b1 - 0x80) * 4096 + (b2 - 0x80) * 64 + (b3 - 0x80)
        if utf8_is_continuation b1 ∧ utf8_is_continuation b2 ∧ utf8_is_continuation b3
            ∧ 0x10000 ≤ c ∧ c ≤ 0x10ffff then
          (iconv_utf8_to_utf16be rest3).map (fun t => utf16be_encode c ++ t)
        else none
      | _ => none
    else none

/-- The call `iconv(iv, &fp, &in, &tp, &out)`: `input` holds the `in` bytes
offered, `out` is the room in the target; the result is the bytes written to
the target (`none` when `iconv` returns `-1`). With `reverse` the descriptor
converts UTF-16BE to UTF-8, otherwise UTF-8 to UTF-16BE. -/
def iconv (reverse : Bool) (input : List Nat) (out : Nat) : Option (List Nat) :=
  match (if reverse then iconv_utf16be_to_utf8 input else iconv_utf8_to_utf16be input) with
  | some t => if t.length ≤ out then some t else none
  | none => none

/-! ## `convert_utf8_utf16be`, `utf16be_encode_json_utf8` -/

/-- The function `convert_utf8_utf16be(s, reverse)`: the bytes of the
returned buffer up to and including its terminator, `none` for a `NULL`
result (or a read outside the buffer). `iconv_open` and the allocation
`allocate_array(4, si.units, 1)` are taken to succeed; `iconv` gets the
`si.bytes` bytes before the terminator and room for `4 * si.units` bytes. -/
def convert_utf8_utf16be (s : List Nat) (reverse : Bool) : Option (List Nat) :=
  match (if reverse then utf16be_string_info s else utf8_string_info s) with
  | none => none
  | some (_, si) =>
    let target_size := 4 * si.units
    match iconv reverse (s.take si.bytes) target_size with
    | none => none
    | some t => some (if reverse then t ++ [0] else t ++ [0, 0])

/-- The `switch (lsb)` of `utf16be_encode_json_utf8`: the value of `escape`
(`0` when the character needs no escape). -/
def json_escape (lsb : Nat) : Nat :=
  match lsb with
  | 0x0d => 0x72
  | 0x0a => 0x6e
  | 0x0c => 0x66
  | 0x08 => 0x62
  | 0x09 => 0x74
  | 0x5c => lsb
  | 0x22 => lsb
  | _ => 0

/-- The `for (i = 0; i < si.units; ++i)` loop of `utf16be_encode_json_utf8`;
the first argument is the number of iterations left, the second is `i`, the
third holds the bytes `b[0..j-1]` written so far. -/
def utf16be_reshape_loop (s : List Nat) : Nat → Nat → List Nat → Option (List Nat)
  | 0, _, b => some b
  | n + 1, i, b =>
    match s[2 * i]?, s[2 * i + 1]? with
    | some msb, some lsb =>
      if msb = 0 then
        let escape := json_escape lsb
        if escape ≠ 0 then
          utf16be_reshape_loop s n (i + 1) (b ++ [0, 0x5c, msb, escape])
        else
          utf16be_reshape_loop s n (i + 1) (b ++ [msb, lsb])
      else
        utf16be_reshape_loop s n (i + 1) (b ++ [msb, lsb])
    | _, _ => none

/-- The scratch buffer `b` of `utf16be_encode_json_utf8` at the call of
`convert_utf8_utf16be`: the reshaped units and the two terminating zero
bytes. -/
def utf16be_reshape (s : List Nat) (units : Nat) : Option (List Nat) :=
  match utf16be_reshape_loop s units 0 [] with
  | some b => some (b ++ [0, 0])
  | none => none

/-- The function `utf16be_encode_json_utf8(s)`: the bytes of the returned
buffer up to and including its terminator. -/
def utf16be_encode_json_utf8 (s : List Nat) : Option (List Nat) :=
  match utf16be_string_info s with
  | none => none
  | some (_, si) =>
    match utf16be_reshape s si.units with
    | none => none
    | some b => convert_utf8_utf16be b true

/-! ## Vocabulary of the specification -/

/-- A lead (high) surrogate: `0xD800..0xDBFF`. -/
def is_lead_surrogate (u : Nat) : Bool := decide (0xd800 ≤ u) && decide (u ≤ 0xdbff)

/-- A trail (low) surrogate: `0xDC00..0xDFFF`. -/
def is_trail_surrogate (u : Nat) : Bool := decide (0xdc00 ≤ u) && decide (u ≤ 0xdfff)

/-- A surrogate of either kind: `0xD800..0xDFFF`. -/
def is_surrogate (u : Nat) : Bool := decide (0xd800 ≤ u) && decide (u ≤ 0xdfff)

/-- The big-endian bytes of a sequence of 16-bit units. -/
def wide : List Nat → List Nat
  | [] => []
  | u :: us => u / 256 :: u % 256 :: wide us

/-- The buffer `s` is a zero-terminated wide-form string whose units before
the terminator are `us`: every unit of `us` is a non-zero 16-bit value, and
`s` holds their bytes, then a zero unit, then anything. -/
def ZeroTerminated (s us : List Nat) : Prop :=
  (∀ u ∈ us, 0 < u ∧ u < 65536) ∧ ∃ rest, s = wide us ++ 0 :: 0 :: rest

/-- A unit `u` whose neighbours are `prev` and `next` is an unpaired
surrogate: a lead not followed by a trail, or a trail not preceded by a
lead. -/
def unpaired_surrogate (prev u next : Nat) : Bool :=
  (is_lead_surrogate u && !is_trail_surrogate next)
    || (is_trail_surrogate u && !is_lead_surrogate prev)

/-- Unit `k` of `us` is an unpaired surrogate, when the unit `prev` stands
right before `us` and the terminator right after it. -/
def unpaired_from (prev : Nat) (us : List Nat) (k : Nat) : Bool :=
  unpaired_surrogate ((prev :: us).getD k 0) (us.getD k 0) (us.getD (k + 1) 0)

/-- Unit `k` of the string `us` is an unpaired surrogate. Nothing precedes
unit `0` and the terminator (`0`) follows the last unit. -/
def unpaired_at (us : List Nat) (k : Nat) : Bool :=
  unpaired_surrogate (if k = 0 then 0 else us.getD (k - 1) 0) (us.getD k 0) (us.getD (k + 1) 0)

/-- The number of unpaired surrogates of the string `us`. -/
def unpaired_count (us : List Nat) : Nat :=
  (List.range us.length).countP (unpaired_at us)

/-- Unit `k` of `us` is a lead surrogate that is not immediately followed by
a trail surrogate. -/
def unpaired_lead_at (us : List Nat) (k : Nat) : Bool :=
  is_lead_surrogate (us.getD k 0) && !is_trail_surrogate (us.getD (k + 1) 0)

/-- Unit `k` of `us` is a trail surrogate that is not immediately preceded by
a lead surrogate. -/
def unpaired_trail_at (us : List Nat) (k : Nat) : Bool :=
  is_trail_surrogate (us.getD k 0)
    && !is_lead_surrogate (if k = 0 then 0 else us.getD (k - 1) 0)

/-- At position `k` of `us` a lead surrogate is immediately followed by a
trail surrogate. -/
def pair_at (us : List Nat) (k : Nat) : Bool :=
  is_lead_surrogate (us.getD k 0) && is_trail_surrogate (us.getD (k + 1) 0)

/-- The number of positions of `us` where a lead surrogate is immediately
followed by a trail surrogate. -/
def pair_count (us : List Nat) : Nat :=
  (List.range us.length).countP (pair_at us)

/-- The string `us` is well-formed UTF-16: every lead surrogate is
immediately followed by a trail surrogate and every trail surrogate is
immediately preceded by a lead surrogate. -/
def WellFormedUtf16 (us : List Nat) : Prop :=
  ∀ k, k < us.length →
    (is_lead_surrogate (us.getD k 0) = true → is_trail_surrogate (us.getD (k + 1) 0) = true)
    ∧ (is_trail_surrogate (us.getD k 0) = true →
        0 < k ∧ is_lead_surrogate (us.getD (k - 1) 0) = true)

/-- The error kind reported for an unpaired surrogate `u`. -/
def unpaired_kind (u : Nat) : string_decode_error_t :=
  if is_lead_surrogate u then D_ERR_UNMATCHED_SURROGATE else D_ERR_UNEXPECTED_SURROGATE

/-- The code points that the GSM 03.38 default alphabet and its extension
table map to, as the specification lists them: U+000A, U+000C, U+000D;
U+0020-U+005F; U+0061-U+007E; the listed Latin-1 letters and signs; ten Greek
capitals; U+20AC. -/
def gsm0338_code_points : List Nat :=
  [0x000a, 0x000c, 0x000d]
    ++ (List.range 0x40).map (fun k => 0x0020 + k)
    ++ (List.range 30).map (fun k => 0x0061 + k)
    ++ [0x00a0, 0x00a1, 0x00a3, 0x00a4, 0x00a5, 0x00a7, 0x00bf]
    ++ [0x00c4, 0x00c5, 0x00c6, 0x00c9, 0x00d1, 0x00d6, 0x00d8, 0x00dc, 0x00df]
    ++ [0x00e0, 0x00e4, 0x00e5, 0x00e6, 0x00e7, 0x00e8, 0x00e9, 0x00ec, 0x00f1, 0x00f2,
        0x00f6, 0x00f8, 0x00f9, 0x00fc]
    ++ [0x0393, 0x0394, 0x0398, 0x039b, 0x039e, 0x03a0, 0x03a3, 0x03a6, 0x03a8, 0x03a9]
    ++ [0x20ac]

/-- The bytes that the specification gives for one input unit below 0x80 in
the JSON-safe output: CR, LF, FF, BS, TAB become a backslash and the letter
`r`, `n`, `f`, `b`, `t`; a double quote or a backslash becomes a backslash and
that same character; every other unit becomes its low byte. -/
def json_escaped_bytes (u : Nat) : List Nat :=
  if u = 0x0d then [0x5c, 0x72]
  else if u = 0x0a then [0x5c, 0x6e]
  else if u = 0x0c then [0x5c, 0x66]
  else if u = 0x08 then [0x5c, 0x62]
  else if u = 0x09 then [0x5c, 0x74]
  else if u = 0x22 ∨ u = 0x5c then [0x5c, u]
  else [u % 256]

/-- Whether `c` may follow a backslash in the two-character escapes of a JSON
string: one of `r`, `n`, `f`, `b`, `t`, the backslash, the double quote. -/
def is_json_escape_letter (c : Nat) : Bool :=
  decide (c = 0x72) || decide (c = 0x6e) || decide (c = 0x66) || decide (c = 0x62)
    || decide (c = 0x74) || decide (c = 0x5c) || decide (c = 0x22)

/-- Every double quote and every backslash of the byte sequence is part of a
two-character backslash escape. -/
def quotes_escaped : List Nat → Bool
  | [] => true
  | [c] => decide (c ≠ 0x5c) && decide (c ≠ 0x22)
  | c :: d :: rest =>
    if c = 0x5c then is_json_escape_letter d && quotes_escaped rest
    else decide (c ≠ 0x22) && quotes_escaped (d :: rest)

/-- The byte sequence is valid as the interior of a double-quoted JSON
string, in the sense of the specification: quotes and backslashes occur only
in two-character escapes, and no raw control character 0x01-0x1F occurs. -/
def json_string_safe (out : List Nat) : Bool :=
  quotes_escaped out && out.all (fun c => !(decide (0x01 ≤ c) && decide (c ≤ 0x1f)))

/-- What the reshape pass of `utf16be_encode_json_utf8` writes for the unit
`u`: the two units of an escape, or the unit itself. -/
def reshape_unit (u : Nat) : List Nat :=
  if u / 256 = 0 ∧ json_escape (u % 256) ≠ 0 then [0x5c, json_escape (u % 256)] else [u]

/-- The number of bytes of `bs` that are not UTF-8 continuation bytes, that
is bytes `b` with `(b & 0xC0) != 0x80`. -/
def non_continuation_count (bs : List Nat) : Nat :=
  bs.countP (fun b => decide (b &&& 0xc0 ≠ 0x80))

/-- The number of units of `us` that are not unpaired surrogates, that is the
units that the scan does not record as invalid. -/
def valid_unit_count (us : List Nat) : Nat :=
  (List.range us.length).countP (fun k => !unpaired_at us k)

/-- The units that the specification gives for one input unit in the reshape
pass: CR, LF, FF, BS, TAB, backslash and double quote become the unit 0x005C
followed by `r`, `n`, `f`, `b`, `t`, 0x5C, 0x22; any other unit is kept. -/
def json_reshape_units (u : Nat) : List Nat :=
  if u = 0x000d then [0x005c, 0x72]
  else if u = 0x000a then [0x005c, 0x6e]
  else if u = 0x000c then [0x005c, 0x66]
  else if u = 0x0008 then [0x005c, 0x62]
  else if u = 0x0009 then [0x005c, 0x74]
  else if u = 0x005c then [0x005c, 0x5c]
  else if u = 0x0022 then [0x005c, 0x22]
  else [u]

/-- Whether the reshape pass replaces the unit `u` by a two-unit escape. -/
def is_escaped_unit (u : Nat) : Bool :=
  decide (u = 0x000d) || decide (u = 0x000a) || decide (u = 0x000c) || decide (u = 0x0008)
    || decide (u = 0x0009) || decide (u = 0x005c) || decide (u = 0x0022)

/-- One pass through the `!in_surrogate` branch of the loop body and its
`Done` part, for the unit `v`: the new `in_surrogate` and `*i`. -/
def scan_fresh (v : Nat) (i : string_info_t) : Bool × string_info_t :=
  if v < utf16_surrogate_first ∨ v > utf16_surrogate_last then
    (false, scan_done { i with symbols := i.symbols + 1 })
  else if v < utf16_surrogate_middle then
    (true, scan_done i)
  else
    (false, scan_done (record_error i D_ERR_UNEXPECTED_SURROGATE))

/-- The iterations of the loop that examine one unit `v`, up to the advance
of the pointer: one iteration, or two when the unit is reparsed. -/
def scan_unit (in_surrogate : Bool) (i : string_info_t) (v : Nat) : Bool × string_info_t :=
  if !in_surrogate then
    scan_fresh v i
  else if v ≥ utf16_surrogate_middle ∧ v ≤ utf16_surrogate_last then
    (false, scan_done { i with symbols := i.symbols + 1 })
  else
    scan_fresh v (record_error i D_ERR_UNMATCHED_SURROGATE)

/-- The loop state after the units `us` have been examined. -/
def scan_units : List Nat → Bool → string_info_t → Bool × string_info_t
  | [], b, i => (b, i)
  | v :: us, b, i => scan_units us (scan_unit b i v).1 (scan_unit b i v).2

/-- The result of `utf16be_string_info` on a string with the units `us`. -/
def scan_result (us : List Nat) : Bool × string_info_t :=
  scan_finished (scan_units us false string_info_init).1 (scan_units us false string_info_init).2

/-! ## Basic facts -/

theorem utf16be_unit_wide (u : Nat) (h : u < 65536) :
    utf16be_unit (u / 256) (u % 256) = u := by
  unfold utf16be_unit
  have h1 : u % 256 < 2 ^ 8 := by omega
  have h2 := Nat.mul_add_lt_is_or h1 (u / 256)
  rw [Nat.shiftLeft_eq, Nat.mul_comm, ← h2]
  omega

theorem utf16be_unit_zero : utf16be_unit 0 0 = 0 := by decide

theorem length_wide (us : List Nat) : (wide us).length = 2 * us.length := by
  induction us with
  | nil => rfl
  | cons u us ih => simp [wide, ih]; omega

/-- Every unit is a regular character, a lead surrogate or a trail
surrogate. -/
theorem surrogate_cases (v : Nat) :
    (is_surrogate v = false ∧ is_lead_surrogate v = false ∧ is_trail_surrogate v = false)
    ∨ (is_surrogate v = true ∧ is_lead_surrogate v = true ∧ is_trail_surrogate v = false)
    ∨ (is_surrogate v = true ∧ is_lead_surrogate v = false ∧ is_trail_surrogate v = true) := by
  simp only [is_surrogate, is_lead_surrogate, is_trail_surrogate, Bool.and_eq_true,
    Bool.and_eq_false_iff, decide_eq_true_eq, decide_eq_false_iff_not]
  omega

theorem scan_fresh_regular (v : Nat) (i : string_info_t) (h : is_surrogate v = false) :
    scan_fresh v i = (false, scan_done { i with symbols := i.symbols + 1 }) := by
  have h1 : v < utf16_surrogate_first ∨ v > utf16_surrogate_last := by
    simp only [is_surrogate, Bool.and_eq_false_iff, decide_eq_false_iff_not] at h
    simp only [utf16_surrogate_first, utf16_surrogate_last]
    omega
  simp [scan_fresh, h1]

theorem scan_fresh_lead (v : Nat) (i : string_info_t) (h : is_lead_surrogate v = true) :
    scan_fresh v i = (true, scan_done i) := by
  simp only [is_lead_surrogate, Bool.and_eq_true, decide_eq_true_eq] at h
  have h1 : ¬ (v < utf16_surrogate_first ∨ v > utf16_surrogate_last) := by
    simp only [utf16_surrogate_first, utf16_surrogate_last]
    omega
  have h2 : v < utf16_surrogate_middle := by
    simp only [utf16_surrogate_middle]
    omega
  simp [scan_fresh, h1, h2]

theorem scan_fresh_trail (v : Nat) (i : string_info_t) (h : is_trail_surrogate v = true) :
    scan_fresh v i = (false, scan_done (record_error i D_ERR_UNEXPECTED_SURROGATE)) := by
  simp only [is_trail_surrogate, Bool.and_eq_true, decide_eq_true_eq] at h
  have h1 : ¬ (v < utf16_surrogate_first ∨ v > utf16_surrogate_last) := by
    simp only [utf16_surrogate_first, utf16_surrogate_last]
    omega
  have h2 : ¬ v < utf16_surrogate_middle := by
    simp only [utf16_surrogate_middle]
    omega
  simp [scan_fresh, h1, h2]

theorem scan_unit_false (v : Nat) (i : string_info_t) :
    scan_unit false i v = scan_fresh v i := by
  simp [scan_unit]

theorem scan_unit_true_trail (v : Nat) (i : string_info_t) (h : is_trail_surrogate v = true) :
    scan_unit true i v = (false, scan_done { i with symbols := i.symbols + 1 }) := by
  simp only [is_trail_surrogate, Bool.and_eq_true, decide_eq_true_eq] at h
  have h1 : v ≥ utf16_surrogate_middle ∧ v ≤ utf16_surrogate_last := by
    simp only [utf16_surrogate_middle, utf16_surrogate_last]
    omega
  simp [scan_unit, h1]

theorem scan_unit_true_other (v : Nat) (i : string_info_t) (h : is_trail_surrogate v = false) :
    scan_unit true i v = scan_fresh v (record_error i D_ERR_UNMATCHED_SURROGATE) := by
  simp only [is_trail_surrogate, Bool.and_eq_false_iff, decide_eq_false_iff_not] at h
  have h1 : ¬ (v ≥ utf16_surrogate_middle ∧ v ≤ utf16_surrogate_last) := by
    simp only [utf16_surrogate_middle, utf16_surrogate_last]
    omega
  simp [scan_unit, h1]

/-! ## The loop computes the unit-by-unit scan -/

/-- One iteration of the loop on a buffer that starts with the unit `u`. -/
theorem utf16be_scan_loop_cons (fuel u : Nat) (p : List Nat) (b : Bool) (i : string_info_t)
    (h0 : 0 < u) (h : u < 65536) :
    utf16be_scan_loop (fuel + 1) (u / 256 :: u % 256 :: p) b i =
      if !b then
        if u < utf16_surrogate_first ∨ u > utf16_surrogate_last then
          utf16be_scan_loop fuel p b (scan_done { i with symbols := i.symbols + 1 })
        else if u < utf16_surrogate_middle then
          utf16be_scan_loop fuel p true (scan_done i)
        else
          utf16be_scan_loop fuel p b (scan_done (record_error i D_ERR_UNEXPECTED_SURROGATE))
      else
        if u ≥ utf16_surrogate_middle ∧ u ≤ utf16_surrogate_last then
          utf16be_scan_loop fuel p false (scan_done { i with symbols := i.symbols + 1 })
        else
          utf16be_scan_loop fuel (u / 256 :: u % 256 :: p) false
            (record_error i D_ERR_UNMATCHED_SURROGATE) := by
  have hne : u ≠ 0 := by omega
  simp only [utf16be_scan_loop, utf16be_unit_wide u h, hne, if_false]

/-- The iterations that examine the unit `u` (two of them when the unit is
reparsed) lead to the state given by `scan_unit`. -/
theorem utf16be_scan_loop_unit (f u : Nat) (p : List Nat) (b : Bool) (i : string_info_t)
    (h0 : 0 < u) (h : u < 65536) :
    ∃ g, f ≤ g ∧ utf16be_scan_loop (f + 2) (u / 256 :: u % 256 :: p) b i =
      utf16be_scan_loop g p (scan_unit b i u).1 (scan_unit b i u).2 := by
  rw [utf16be_scan_loop_cons (f + 1) u p b i h0 h]
  cases b with
  | false =>
    refine ⟨f + 1, by omega, ?_⟩
    simp only [Bool.not_false, ↓reduceIte, scan_unit, scan_fresh]
    split_ifs <;> rfl
  | true =>
    simp only [Bool.not_true, Bool.false_eq_true, ↓reduceIte, scan_unit]
    split_ifs with h1
    · exact ⟨f + 1, by omega, rfl⟩
    · refine ⟨f, le_refl f, ?_⟩
      rw [utf16be_scan_loop_cons f u p false _ h0 h]
      simp only [Bool.not_false, ↓reduceIte, scan_fresh]
      split_ifs <;> rfl

/-- The loop on a zero-terminated buffer arrives at `finished` in the state
computed unit by unit, provided it has `2 * length us + 1` units of fuel. -/
theorem utf16be_scan_loop_fuel (us : List Nat) :
    ∀ (fuel : Nat) (rest : List Nat) (b : Bool) (i : string_info_t),
      (∀ u ∈ us, 0 < u ∧ u < 65536) → 2 * us.length + 1 ≤ fuel →
      utf16be_scan_loop fuel (wide us ++ 0 :: 0 :: rest) b i = some (scan_units us b i) := by
  induction us with
  | nil =>
    intro fuel rest b i _ hf
    obtain ⟨f, rfl⟩ : ∃ f, fuel = f + 1 := ⟨fuel - 1, by simp at hf; omega⟩
    simp [wide, utf16be_scan_loop, utf16be_unit_zero, scan_units]
  | cons u us ih =>
    intro fuel rest b i hu hf
    have hu0 := hu u (List.mem_cons_self u us)
    have hus : ∀ x ∈ us, 0 < x ∧ x < 65536 := fun x hx => hu x (List.mem_cons_of_mem u hx)
    simp only [List.length_cons] at hf
    obtain ⟨f, rfl⟩ : ∃ f, fuel = f + 2 := ⟨fuel - 2, by omega⟩
    obtain ⟨g, hg, heq⟩ := utf16be_scan_loop_unit f u (wide us ++ 0 :: 0 :: rest) b i hu0.1 hu0.2
    simp only [wide, List.cons_append, scan_units]
    rw [heq]
    exact ih g rest _ _ hus (by omega)

theorem utf16be_string_info_eq (s us : List Nat) (h : ZeroTerminated s us) :
    utf16be_string_info s = some (scan_result us) := by
  obtain ⟨hu, rest, rfl⟩ := h
  have hf : 2 * us.length + 1 ≤ (wide us ++ 0 :: 0 :: rest).length + 1 := by
    simp only [List.length_append, List.length_cons, length_wide]; omega
  simp only [utf16be_string_info, utf16be_scan_loop_fuel us _ rest false string_info_init hu hf,
    scan_result]

/-! ## Effect of one unit on each field -/

@[simp]
theorem record_error_bytes (i : string_info_t) (e : string_decode_error_t) :
    (record_error i e).bytes = i.bytes := by
  simp only [record_error]; split_ifs <;> rfl

@[simp]
theorem record_error_units (i : string_info_t) (e : string_decode_error_t) :
    (record_error i e).units = i.units := by
  simp only [record_error]; split_ifs <;> rfl

@[simp]
theorem record_error_symbols (i : string_info_t) (e : string_decode_error_t) :
    (record_error i e).symbols = i.symbols := by
  simp only [record_error]; split_ifs <;> rfl

@[simp]
theorem record_error_invalid_bytes (i : string_info_t) (e : string_decode_error_t) :
    (record_error i e).invalid_bytes = i.invalid_bytes + 2 := by
  simp only [record_error]; split_ifs <;> rfl

theorem record_error_of_none (i : string_info_t) (e : string_decode_error_t)
    (h : i.error = D_ERR_NONE) :
    (record_error i e).error = e ∧ (record_error i e).error_offset = i.bytes := by
  simp [record_error, h]

theorem record_error_of_ne (i : string_info_t) (e : string_decode_error_t)
    (h : i.error ≠ D_ERR_NONE) :
    (record_error i e).error = i.error ∧ (record_error i e).error_offset = i.error_offset := by
  simp [record_error, h]

theorem scan_unit_fst (b : Bool) (i : string_info_t) (v : Nat) :
    (scan_unit b i v).1 = is_lead_surrogate v := by
  rcases surrogate_cases v with ⟨h1, h2, h3⟩ | ⟨h1, h2, h3⟩ | ⟨h1, h2, h3⟩ <;> cases b <;>
    simp [scan_unit_false, scan_unit_true_trail, scan_unit_true_other, scan_fresh_regular,
      scan_fresh_lead, scan_fresh_trail, h1, h2, h3]

theorem scan_unit_units (b : Bool) (i : string_info_t) (v : Nat) :
    (scan_unit b i v).2.units = i.units + 1 := by
  rcases surrogate_cases v with ⟨h1, h2, h3⟩ | ⟨h1, h2, h3⟩ | ⟨h1, h2, h3⟩ <;> cases b <;>
    simp [scan_unit_false, scan_unit_true_trail, scan_unit_true_other, scan_fresh_regular,
      scan_fresh_lead, scan_fresh_trail, h1, h2, h3, scan_done]

theorem scan_unit_bytes (b : Bool) (i : string_info_t) (v : Nat) :
    (scan_unit b i v).2.bytes = i.bytes + 2 := by
  rcases surrogate_cases v with ⟨h1, h2, h3⟩ | ⟨h1, h2, h3⟩ | ⟨h1, h2, h3⟩ <;> cases b <;>
    simp [scan_unit_false, scan_unit_true_trail, scan_unit_true_other, scan_fresh_regular,
      scan_fresh_lead, scan_fresh_trail, h1, h2, h3, scan_done]

theorem scan_unit_symbols (b : Bool) (i : string_info_t) (v : Nat) :
    (scan_unit b i v).2.symbols =
      i.symbols + (if !is_surrogate v then 1 else 0)
        + (if b && is_trail_surrogate v then 1 else 0) := by
  rcases surrogate_cases v with ⟨h1, h2, h3⟩ | ⟨h1, h2, h3⟩ | ⟨h1, h2, h3⟩ <;> cases b <;>
    simp [scan_unit_false, scan_unit_true_trail, scan_unit_true_other, scan_fresh_regular,
      scan_fresh_lead, scan_fresh_trail, h1, h2, h3, scan_done]

theorem scan_unit_invalid_bytes (b : Bool) (i : string_info_t) (v : Nat) :
    (scan_unit b i v).2.invalid_bytes =
      i.invalid_bytes + 2 * (if b && !is_trail_surrogate v then 1 else 0)
        + 2 * (if !b && is_trail_surrogate v then 1 else 0) := by
  rcases surrogate_cases v with ⟨h1, h2, h3⟩ | ⟨h1, h2, h3⟩ | ⟨h1, h2, h3⟩ <;> cases b <;>
    simp [scan_unit_false, scan_unit_true_trail, scan_unit_true_other, scan_fresh_regular,
      scan_fresh_lead, scan_fresh_trail, h1, h2, h3, scan_done]

/-- An error that has been recorded is kept by every later unit. -/
theorem scan_unit_error_of_ne (b : Bool) (i : string_info_t) (v : Nat)
    (h : i.error ≠ D_ERR_NONE) :
    (scan_unit b i v).2.error = i.error ∧ (scan_unit b i v).2.error_offset = i.error_offset := by
  have hr := fun e => record_error_of_ne i e h
  have hrr : ∀ e e2, (record_error (record_error i e) e2).error = i.error
      ∧ (record_error (record_error i e) e2).error_offset = i.error_offset := by
    intro e e2
    have h2 := record_error_of_ne (record_error i e) e2 (by rw [(hr e).1]; exact h)
    rw [h2.1, h2.2]; exact hr e
  rcases surrogate_cases v with ⟨h1, h2, h3⟩ | ⟨h1, h2, h3⟩ | ⟨h1, h2, h3⟩ <;> cases b <;>
    simp [scan_unit_false, scan_unit_true_trail, scan_unit_true_other, scan_fresh_regular,
      scan_fresh_lead, scan_fresh_trail, h1, h2, h3, scan_done, hr, hrr]

/-- A unit that completes a pair, or a regular character or a lead met outside
a pair, records no error. -/
theorem scan_unit_error_none (b : Bool) (i : string_info_t) (v : Nat)
    (h : i.error = D_ERR_NONE) (hb : b = is_trail_surrogate v) :
    (scan_unit b i v).2.error = D_ERR_NONE := by
  subst hb
  rcases surrogate_cases v with ⟨h1, h2, h3⟩ | ⟨h1, h2, h3⟩ | ⟨h1, h2, h3⟩ <;>
    simp [scan_unit_false, scan_unit_true_trail, scan_fresh_regular,
      scan_fresh_lead, h1, h2, h3, scan_done, h]

/-- A unit met while a lead is pending, and which is not a trail, records the
unmatched lead at the current offset. -/
theorem scan_unit_error_unmatched (i : string_info_t) (v : Nat)
    (h : i.error = D_ERR_NONE) (hv : is_trail_surrogate v = false) :
    (scan_unit true i v).2.error = D_ERR_UNMATCHED_SURROGATE
      ∧ (scan_unit true i v).2.error_offset = i.bytes := by
  have hr := record_error_of_none i D_ERR_UNMATCHED_SURROGATE h
  rcases surrogate_cases v with ⟨h1, h2, h3⟩ | ⟨h1, h2, h3⟩ | ⟨h1, h2, h3⟩ <;>
    simp_all [scan_unit_true_other, scan_fresh_regular, scan_fresh_lead, scan_done]

/-- A trail met outside a pair is recorded at the current offset. -/
theorem scan_unit_error_unexpected (i : string_info_t) (v : Nat)
    (h : i.error = D_ERR_NONE) (hv : is_trail_surrogate v = true) :
    (scan_unit false i v).2.error = D_ERR_UNEXPECTED_SURROGATE
      ∧ (scan_unit false i v).2.error_offset = i.bytes := by
  have hr := record_error_of_none i D_ERR_UNEXPECTED_SURROGATE h
  simp [scan_unit_false, scan_fresh_trail, hv, scan_done, hr]

/-! ## Counting over positions -/

theorem countP_range_succ (p : Nat → Bool) (n : Nat) :
    (List.range (n + 1)).countP p
      = (if p 0 then 1 else 0) + (List.range n).countP (fun k => p (k + 1)) := by
  rw [List.range_succ_eq_map, List.countP_cons, List.countP_map, Nat.add_comm]
  rfl

theorem unpaired_from_zero (prev u : Nat) (rest : List Nat) :
    unpaired_from prev (u :: rest) 0 = unpaired_surrogate prev u (rest.getD 0 0) := by
  simp [unpaired_from]

theorem unpaired_from_succ (prev u : Nat) (rest : List Nat) (k : Nat) :
    unpaired_from prev (u :: rest) (k + 1) = unpaired_from u rest k := by
  simp [unpaired_from]

theorem unpaired_at_eq_from (us : List Nat) (k : Nat) :
    unpaired_at us k = unpaired_from 0 us k := by
  cases k <;> simp [unpaired_at, unpaired_from]

theorem countP_unpaired_from_cons (prev u : Nat) (rest : List Nat) :
    (List.range (u :: rest).length).countP (unpaired_from prev (u :: rest))
      = (if unpaired_surrogate prev u (rest.getD 0 0) then 1 else 0)
        + (List.range rest.length).countP (unpaired_from u rest) := by
  rw [List.length_cons, countP_range_succ, unpaired_from_zero]
  simp only [unpaired_from_succ]

theorem unpaired_count_eq_from (us : List Nat) :
    unpaired_count us = (List.range us.length).countP (unpaired_from 0 us) := by
  unfold unpaired_count
  congr 1
  funext k
  exact unpaired_at_eq_from us k

theorem pair_count_cons (u : Nat) (rest : List Nat) :
    pair_count (u :: rest)
      = (if is_lead_surrogate u && is_trail_surrogate (rest.getD 0 0) then 1 else 0)
        + pair_count rest := by
  unfold pair_count
  rw [List.length_cons, countP_range_succ]
  simp only [pair_at, List.getD_cons_zero, List.getD_cons_succ]
  rfl

/-! ## The fields of the final state -/

theorem scan_units_units (us : List Nat) :
    ∀ (b : Bool) (i : string_info_t), (scan_units us b i).2.units = i.units + us.length := by
  induction us with
  | nil => intro b i; rfl
  | cons u us ih =>
    intro b i
    simp only [scan_units, ih, scan_unit_units, List.length_cons]
    omega

theorem scan_units_bytes (us : List Nat) :
    ∀ (b : Bool) (i : string_info_t), (scan_units us b i).2.bytes = i.bytes + 2 * us.length := by
  induction us with
  | nil => intro b i; rfl
  | cons u us ih =>
    intro b i
    simp only [scan_units, ih, scan_unit_bytes, List.length_cons]
    omega

theorem scan_units_symbols (us : List Nat) :
    ∀ (b : Bool) (i : string_info_t),
      (scan_units us b i).2.symbols
        = i.symbols + (if b && is_trail_surrogate (us.getD 0 0) then 1 else 0)
          + us.countP (fun u => !is_surrogate u) + pair_count us := by
  induction us with
  | nil =>
    intro b i
    have h0 : is_trail_surrogate 0 = false := by decide
    simp [scan_units, pair_count, h0]
  | cons u us ih =>
    intro b i
    simp only [scan_units, ih, scan_unit_symbols, scan_unit_fst, pair_count_cons,
      List.countP_cons, List.getD_cons_zero]
    omega

theorem scan_finished_record_invalid_bytes (b : Bool) (i : string_info_t) :
    (scan_finished_record b i).invalid_bytes = i.invalid_bytes + 2 * (if b then 1 else 0) := by
  cases b <;> simp [scan_finished_record]

theorem scan_finished_invalid_bytes (b : Bool) (i : string_info_t) :
    (scan_finished b i).2.invalid_bytes = (scan_finished_record b i).invalid_bytes := by
  simp only [scan_finished]
  split_ifs <;> rfl

theorem scan_finished_symbols (b : Bool) (i : string_info_t) :
    (scan_finished b i).2.symbols = i.symbols := by
  simp only [scan_finished, scan_finished_record]
  cases b <;> simp <;> split_ifs <;> simp

theorem scan_finished_fst (b : Bool) (i : string_info_t) :
    (scan_finished b i).1 = decide ((scan_finished b i).2.invalid_bytes = 0) := by
  simp only [scan_finished]

/-- The invalid bytes at the end of the scan: those recorded so far, the lead
that is pending at the start if no trail follows it, and the unpaired
surrogates among the units still to be examined. -/
theorem scan_units_invalid_bytes (us : List Nat) :
    ∀ (prev : Nat) (i : string_info_t),
      (scan_finished_record (scan_units us (is_lead_surrogate prev) i).1
          (scan_units us (is_lead_surrogate prev) i).2).invalid_bytes
        = i.invalid_bytes
          + 2 * ((if is_lead_surrogate prev && !is_trail_surrogate (us.getD 0 0) then 1 else 0)
            + (List.range us.length).countP (unpaired_from prev us)) := by
  induction us with
  | nil =>
    intro prev i
    have h0 : is_trail_surrogate 0 = false := by decide
    simp [scan_units, scan_finished_record_invalid_bytes, h0]
  | cons u us ih =>
    intro prev i
    have hstep := ih u (scan_unit (is_lead_surrogate prev) i u).2
    simp only [scan_units, scan_unit_fst]
    rw [hstep, scan_unit_invalid_bytes, countP_unpaired_from_cons, List.getD_cons_zero]
    simp only [unpaired_surrogate]
    generalize us.getD 0 0 = nx
    generalize (List.range us.length).countP (unpaired_from u us) = c
    rcases surrogate_cases u with ⟨h1, h2, h3⟩ | ⟨h1, h2, h3⟩ | ⟨h1, h2, h3⟩ <;>
      rcases Bool.eq_false_or_eq_true (is_lead_surrogate prev) with hp | hp <;>
      rcases Bool.eq_false_or_eq_true (is_trail_surrogate nx) with hn | hn <;>
      simp [h1, h2, h3, hp, hn] <;> omega

/-! ## The first error -/

theorem scan_finished_error (b : Bool) (i : string_info_t) :
    (scan_finished b i).2.error = (scan_finished_record b i).error := by
  simp only [scan_finished]
  split_ifs <;> rfl

theorem scan_finished_error_offset (b : Bool) (i : string_info_t) :
    (scan_finished b i).2.error_offset
      = (scan_finished_record b i).error_offset
        - (if (scan_finished_record b i).error = D_ERR_UNMATCHED_SURROGATE then 2 else 0) := by
  simp only [scan_finished]
  split_ifs <;> rfl

/-- Once an error is recorded, the rest of the scan keeps its kind and its
offset; the final block moves the offset of an unmatched lead back by one
unit. -/
theorem scan_units_error_kept (us : List Nat) :
    ∀ (b : Bool) (i : string_info_t), i.error ≠ D_ERR_NONE →
      (scan_finished (scan_units us b i).1 (scan_units us b i).2).2.error = i.error
      ∧ (scan_finished (scan_units us b i).1 (scan_units us b i).2).2.error_offset
          = i.error_offset - (if i.error = D_ERR_UNMATCHED_SURROGATE then 2 else 0) := by
  induction us with
  | nil =>
    intro b i h
    have hr := record_error_of_ne i D_ERR_UNMATCHED_SURROGATE h
    simp only [scan_units, scan_finished_error, scan_finished_error_offset, scan_finished_record]
    cases b <;> simp [hr]
  | cons u us ih =>
    intro b i h
    have hs := scan_unit_error_of_ne b i u h
    have h2 := ih (scan_unit b i u).1 (scan_unit b i u).2 (by rw [hs.1]; exact h)
    simp only [scan_units]
    rw [h2.1, h2.2, hs.1, hs.2]
    exact ⟨rfl, rfl⟩

/-- A lead that is pending when the next unit is not a trail (or is the
terminator) gives the first error, at the offset of the lead. -/
theorem scan_units_error_pending (us : List Nat) (i : string_info_t)
    (h : i.error = D_ERR_NONE) (hn : is_trail_surrogate (us.getD 0 0) = false) :
    (scan_finished (scan_units us true i).1 (scan_units us true i).2).2.error
        = D_ERR_UNMATCHED_SURROGATE
      ∧ (scan_finished (scan_units us true i).1 (scan_units us true i).2).2.error_offset
        = i.bytes - 2 := by
  cases us with
  | nil =>
    have hr := record_error_of_none i D_ERR_UNMATCHED_SURROGATE h
    simp [scan_units, scan_finished_error, scan_finished_error_offset, scan_finished_record, hr]
  | cons u us =>
    rw [List.getD_cons_zero] at hn
    have hs := scan_unit_error_unmatched i u h hn
    have h2 := scan_units_error_kept us (scan_unit true i u).1 (scan_unit true i u).2
      (by rw [hs.1]; decide)
    simp only [scan_units]
    rw [h2.1, h2.2, hs.1, hs.2]
    simp

/-- The first unpaired surrogate is the one reported. Here `prev` is the unit
before `us`; the scan starts with no error recorded and, when `prev` is a
pending lead, with a trail as first unit. -/
theorem scan_units_error_first (us : List Nat) :
    ∀ (prev : Nat) (i : string_info_t) (k : Nat), i.error = D_ERR_NONE →
      (is_lead_surrogate prev = true → is_trail_surrogate (us.getD 0 0) = true) →
      k < us.length → unpaired_from prev us k = true →
      (∀ j, j < k → unpaired_from prev us j = false) →
      (scan_finished (scan_units us (is_lead_surrogate prev) i).1
          (scan_units us (is_lead_surrogate prev) i).2).2.error = unpaired_kind (us.getD k 0)
      ∧ (scan_finished (scan_units us (is_lead_surrogate prev) i).1
          (scan_units us (is_lead_surrogate prev) i).2).2.error_offset = i.bytes + 2 * k := by
  induction us with
  | nil => intro prev i k _ _ hk; simp at hk
  | cons u us ih =>
    intro prev i k h hp hk hu hj
    rw [List.getD_cons_zero] at hp
    simp only [scan_units, scan_unit_fst]
    cases k with
    | zero =>
      rw [unpaired_from_zero] at hu
      simp only [unpaired_surrogate, Bool.or_eq_true, Bool.and_eq_true, Bool.not_eq_true'] at hu
      rcases hu with ⟨hl, hn⟩ | ⟨ht, hpl⟩
      · -- a lead without a trail after it
        have hpl : is_lead_surrogate prev = false := by
          rcases Bool.eq_false_or_eq_true (is_lead_surrogate prev) with hq | hq
          · have := hp hq
            rcases surrogate_cases u with ⟨_, h2, h3⟩ | ⟨_, h2, h3⟩ | ⟨_, h2, h3⟩ <;> simp_all
          · exact hq
        have hs : scan_unit (is_lead_surrogate prev) i u = (true, scan_done i) := by
          rw [hpl, scan_unit_false, scan_fresh_lead u i hl]
        have h2 := scan_units_error_pending us (scan_done i) (by simpa [scan_done] using h) hn
        rw [hs, hl]
        simp only [List.getD_cons_zero, unpaired_kind, hl, if_true]
        rw [h2.1, h2.2]
        simp [scan_done]
      · -- a trail without a lead before it
        have hs := scan_unit_error_unexpected i u h ht
        rw [hpl] at *
        have h2 := scan_units_error_kept us (is_lead_surrogate u) (scan_unit false i u).2
          (by rw [hs.1]; decide)
        have hl : is_lead_surrogate u = false := by
          rcases surrogate_cases u with ⟨_, h2, h3⟩ | ⟨_, h2, h3⟩ | ⟨_, h2, h3⟩ <;> simp_all
        rw [h2.1, h2.2, hs.1, hs.2]
        simp [unpaired_kind, hl]
    | succ k =>
      have h0 := hj 0 (Nat.succ_pos k)
      rw [unpaired_from_zero] at h0
      simp only [unpaired_surrogate, Bool.or_eq_false_iff, Bool.and_eq_false_iff,
        Bool.not_eq_false'] at h0
      rw [unpaired_from_succ] at hu
      have hb : is_lead_surrogate prev = is_trail_surrogate u := by
        rcases Bool.eq_false_or_eq_true (is_lead_surrogate prev) with hq | hq
        · rw [hq, hp hq]
        · rcases h0.2 with h3 | h3
          · rw [hq, h3]
          · rw [hq] at h3; exact absurd h3 (by decide)
      have hnone := scan_unit_error_none (is_lead_surrogate prev) i u h hb
      have hnext : is_lead_surrogate u = true → is_trail_surrogate (us.getD 0 0) = true := by
        intro hl
        rcases h0.1 with h3 | h3
        · rw [hl] at h3; exact absurd h3 (by decide)
        · exact h3
      have hres := ih u (scan_unit (is_lead_surrogate prev) i u).2 k hnone hnext
        (by simpa using hk) hu
        (fun j hjk => by
          have := hj (j + 1) (by omega)
          rwa [unpaired_from_succ] at this)
      rw [hres.1, hres.2, scan_unit_bytes, List.getD_cons_succ]
      exact ⟨rfl, by omega⟩

/-! ## The result of `utf16be_string_info` -/

theorem is_lead_surrogate_zero : is_lead_surrogate 0 = false := by decide

theorem scan_result_fst (us : List Nat) :
    (scan_result us).1 = decide ((scan_result us).2.invalid_bytes = 0) :=
  scan_finished_fst _ _

theorem scan_finished_units (b : Bool) (i : string_info_t) :
    (scan_finished b i).2.units = i.units := by
  simp only [scan_finished, scan_finished_record]
  cases b <;> simp <;> split_ifs <;> simp

theorem scan_finished_bytes (b : Bool) (i : string_info_t) :
    (scan_finished b i).2.bytes = i.bytes := by
  simp only [scan_finished, scan_finished_record]
  cases b <;> simp <;> split_ifs <;> simp

theorem scan_result_units (us : List Nat) : (scan_result us).2.units = us.length := by
  rw [scan_result, scan_finished_units, scan_units_units]
  simp [string_info_init]

theorem scan_result_bytes (us : List Nat) : (scan_result us).2.bytes = 2 * us.length := by
  rw [scan_result, scan_finished_bytes, scan_units_bytes]
  simp [string_info_init]

theorem scan_result_symbols (us : List Nat) :
    (scan_result us).2.symbols = us.countP (fun u => !is_surrogate u) + pair_count us := by
  rw [scan_result, scan_finished_symbols, scan_units_symbols]
  simp [string_info_init]

theorem scan_result_invalid_bytes (us : List Nat) :
    (scan_result us).2.invalid_bytes = 2 * unpaired_count us := by
  have h := scan_units_invalid_bytes us 0 string_info_init
  rw [is_lead_surrogate_zero] at h
  rw [scan_result, scan_finished_invalid_bytes, h, unpaired_count_eq_from]
  simp [string_info_init]

theorem scan_result_error_first (us : List Nat) (k : Nat) (hk : k < us.length)
    (hu : unpaired_at us k = true) (hj : ∀ j, j < k → unpaired_at us j = false) :
    (scan_result us).2.error = unpaired_kind (us.getD k 0)
      ∧ (scan_result us).2.error_offset = 2 * k := by
  have h := scan_units_error_first us 0 string_info_init k rfl
    (by rw [is_lead_surrogate_zero]; intro h; exact absurd h (by decide)) hk
    (by rw [← unpaired_at_eq_from]; exact hu)
    (fun j hjk => by rw [← unpaired_at_eq_from]; exact hj j hjk)
  rw [is_lead_surrogate_zero] at h
  rw [scan_result, h.1, h.2]
  exact ⟨rfl, by simp [string_info_init]⟩

/-- A string is well-formed exactly when none of its units is an unpaired
surrogate. -/
theorem wellFormedUtf16_iff (us : List Nat) :
    WellFormedUtf16 us ↔ ∀ k, k < us.length → unpaired_at us k = false := by
  unfold WellFormedUtf16
  refine forall_congr' fun k => imp_congr_right fun _ => ?_
  simp only [unpaired_at, unpaired_surrogate]
  generalize us.getD (k + 1) 0 = nx
  generalize us.getD k 0 = u
  cases k with
  | zero =>
    simp only [if_true, is_lead_surrogate_zero]
    rcases surrogate_cases u with ⟨h1, h2, h3⟩ | ⟨h1, h2, h3⟩ | ⟨h1, h2, h3⟩ <;>
      cases hn : is_trail_surrogate nx <;> simp [h2, h3]
  | succ k =>
    simp only [Nat.succ_ne_zero, if_false, Nat.add_sub_cancel]
    generalize us.getD k 0 = pv
    rcases surrogate_cases u with ⟨h1, h2, h3⟩ | ⟨h1, h2, h3⟩ | ⟨h1, h2, h3⟩ <;>
      cases hn : is_trail_surrogate nx <;> cases hp : is_lead_surrogate pv <;> simp [h2, h3]

theorem unpaired_count_eq_zero_iff (us : List Nat) :
    unpaired_count us = 0 ↔ WellFormedUtf16 us := by
  rw [wellFormedUtf16_iff, unpaired_count, List.countP_eq_zero]
  simp only [List.mem_range, Bool.not_eq_true]

theorem countP_or_of_exclusive (p q : Nat → Bool) (l : List Nat)
    (h : ∀ x, p x = true → q x = false) :
    l.countP (fun x => p x || q x) = l.countP p + l.countP q := by
  induction l with
  | nil => rfl
  | cons a l ih =>
    simp only [List.countP_cons, ih]
    cases hp : p a <;> cases hq : q a <;> simp
    · omega
    · omega
    · rw [h a hp] at hq; exact absurd hq (by decide)

theorem unpaired_count_eq_add (us : List Nat) :
    unpaired_count us
      = (List.range us.length).countP (unpaired_lead_at us)
        + (List.range us.length).countP (unpaired_trail_at us) := by
  rw [← countP_or_of_exclusive]
  · rfl
  · intro k hk
    simp only [unpaired_lead_at, Bool.and_eq_true] at hk
    simp only [unpaired_trail_at]
    rcases surrogate_cases (us.getD k 0) with ⟨_, h2, h3⟩ | ⟨_, h2, h3⟩ | ⟨_, h2, h3⟩ <;>
      simp_all

/-! ## The claims on `utf16be_string_info` -/

/-- C2: on a zero-terminated wide-form buffer `utf16be_string_info` returns
true exactly when `invalid_bytes` is zero, and `invalid_bytes` is zero exactly
when the units before the terminator are well-formed UTF-16 (every lead
immediately followed by a trail, every trail immediately preceded by a
lead). -/
theorem utf16be_string_info_true_iff_well_formed (s us : List Nat)
    (h : ZeroTerminated s us) :
    ∃ r i, utf16be_string_info s = some (r, i)
      ∧ (r = true ↔ i.invalid_bytes = 0)
      ∧ (i.invalid_bytes = 0 ↔ WellFormedUtf16 us) := by
  refine ⟨(scan_result us).1, (scan_result us).2, utf16be_string_info_eq s us h, ?_, ?_⟩
  · rw [scan_result_fst]; simp
  · rw [scan_result_invalid_bytes, ← unpaired_count_eq_zero_iff]; omega

theorem utf16be_string_info_true_iff_well_formed_witness :
    ∃ r i, utf16be_string_info [0xd8, 0x3d, 0xde, 0x00, 0, 0] = some (r, i)
      ∧ (r = true ↔ i.invalid_bytes = 0)
      ∧ (i.invalid_bytes = 0 ↔ WellFormedUtf16 [0xd83d, 0xde00]) :=
  utf16be_string_info_true_iff_well_formed [0xd8, 0x3d, 0xde, 0x00, 0, 0] [0xd83d, 0xde00]
    ⟨by decide, [], rfl⟩

/-- C3: when unit `k` is the first unpaired surrogate of a zero-terminated
wide-form buffer, `utf16be_string_info` reports `error_offset = 2 * k`, with
`error` unmatched-surrogate when the unit is a lead (also when it is the last
unit before the terminator) and unexpected-surrogate when it is a trail. -/
theorem utf16be_string_info_first_error (s us : List Nat) (k : Nat)
    (h : ZeroTerminated s us) (hk : k < us.length) (hu : unpaired_at us k = true)
    (hfirst : ∀ j, j < k → unpaired_at us j = false) :
    ∃ r i, utf16be_string_info s = some (r, i)
      ∧ i.error_offset = 2 * k
      ∧ (is_lead_surrogate (us.getD k 0) = true → i.error = D_ERR_UNMATCHED_SURROGATE)
      ∧ (is_trail_surrogate (us.getD k 0) = true → i.error = D_ERR_UNEXPECTED_SURROGATE) := by
  have he := scan_result_error_first us k hk hu hfirst
  refine ⟨(scan_result us).1, (scan_result us).2, utf16be_string_info_eq s us h, he.2, ?_, ?_⟩
  · intro hl
    rw [he.1, unpaired_kind, hl]; rfl
  · intro ht
    have hl : is_lead_surrogate (us.getD k 0) = false := by
      rcases surrogate_cases (us.getD k 0) with ⟨_, h2, h3⟩ | ⟨_, h2, h3⟩ | ⟨_, h2, h3⟩ <;>
        simp_all
    rw [he.1, unpaired_kind, hl]; rfl

theorem utf16be_string_info_first_error_witness :
    ∃ r i, utf16be_string_info [0x00, 0x41, 0xd8, 0x00, 0, 0] = some (r, i)
      ∧ i.error_offset = 2 * 1
      ∧ (is_lead_surrogate ([0x41, 0xd800].getD 1 0) = true
          → i.error = D_ERR_UNMATCHED_SURROGATE)
      ∧ (is_trail_surrogate ([0x41, 0xd800].getD 1 0) = true
          → i.error = D_ERR_UNEXPECTED_SURROGATE) :=
  utf16be_string_info_first_error [0x00, 0x41, 0xd8, 0x00, 0, 0] [0x41, 0xd800] 1
    ⟨by decide, [], rfl⟩ (by decide) (by decide) (by decide)

/-- C7: on a zero-terminated wide-form buffer `symbols` is the number of
non-surrogate units plus the number of positions where a lead is immediately
followed by a trail; and a dangling lead does not consume the unit after it:
when the units are a lead and a non-surrogate, the scan reports an unmatched
surrogate at offset 0, two invalid bytes and one symbol. -/
theorem utf16be_string_info_symbols (s us : List Nat) (h : ZeroTerminated s us) :
    ∃ r i, utf16be_string_info s = some (r, i)
      ∧ i.symbols = us.countP (fun u => !is_surrogate u) + pair_count us
      ∧ (∀ l u, us = [l, u] → is_lead_surrogate l = true → is_surrogate u = false →
          i.error = D_ERR_UNMATCHED_SURROGATE ∧ i.error_offset = 0
            ∧ i.invalid_bytes = 2 ∧ i.symbols = 1) := by
  refine ⟨(scan_result us).1, (scan_result us).2, utf16be_string_info_eq s us h,
    scan_result_symbols us, ?_⟩
  intro l u hus hl hu
  subst hus
  have hlt : is_trail_surrogate l = false := by
    rcases surrogate_cases l with ⟨_, h2, h3⟩ | ⟨_, h2, h3⟩ | ⟨_, h2, h3⟩ <;> simp_all
  have hls : is_surrogate l = true := by
    rcases surrogate_cases l with ⟨h1, h2, _⟩ | ⟨h1, h2, _⟩ | ⟨h1, h2, _⟩ <;> simp_all
  have hut : is_trail_surrogate u = false := by
    rcases surrogate_cases u with ⟨h1, _, h3⟩ | ⟨h1, _, h3⟩ | ⟨h1, _, h3⟩ <;> simp_all
  have hul : is_lead_surrogate u = false := by
    rcases surrogate_cases u with ⟨h1, h2, _⟩ | ⟨h1, h2, _⟩ | ⟨h1, h2, _⟩ <;> simp_all
  have h0 : unpaired_at [l, u] 0 = true := by
    simp [unpaired_at, unpaired_surrogate, hl, hut]
  have he := scan_result_error_first [l, u] 0 (by simp) h0 (fun j hj => absurd hj (by omega))
  refine ⟨?_, he.2, ?_, ?_⟩
  · rw [he.1]; simp [unpaired_kind, hl]
  · rw [scan_result_invalid_bytes, unpaired_count]
    have h1 : unpaired_at [l, u] 1 = false := by
      simp [unpaired_at, unpaired_surrogate, hul, hut]
    simp [List.range_succ, List.countP_cons, h0, h1]
  · rw [scan_result_symbols, pair_count]
    simp [List.range_succ, List.countP_cons, pair_at, hls, hu, hut, hul]

theorem utf16be_string_info_symbols_witness :
    ∃ r i, utf16be_string_info [0xd8, 0x00, 0x00, 0x41, 0, 0] = some (r, i)
      ∧ i.symbols = [0xd800, 0x41].countP (fun u => !is_surrogate u) + pair_count [0xd800, 0x41]
      ∧ (∀ l u, [0xd800, 0x41] = [l, u] → is_lead_surrogate l = true → is_surrogate u = false →
          i.error = D_ERR_UNMATCHED_SURROGATE ∧ i.error_offset = 0
            ∧ i.invalid_bytes = 2 ∧ i.symbols = 1) :=
  utf16be_string_info_symbols [0xd8, 0x00, 0x00, 0x41, 0, 0] [0xd800, 0x41] ⟨by decide, [], rfl⟩

/-- C8: the scan goes on after the first error: on a zero-terminated
wide-form buffer `invalid_bytes` is twice the number of leads not immediately
followed by a trail plus the number of trails not immediately preceded by a
lead, over all units before the terminator, while `error` and `error_offset`
describe the first unpaired surrogate only. -/
theorem utf16be_string_info_invalid_bytes (s us : List Nat) (h : ZeroTerminated s us) :
    ∃ r i, utf16be_string_info s = some (r, i)
      ∧ i.invalid_bytes
          = 2 * ((List.range us.length).countP (unpaired_lead_at us)
              + (List.range us.length).countP (unpaired_trail_at us))
      ∧ (∀ k, k < us.length → unpaired_at us k = true →
          (∀ j, j < k → unpaired_at us j = false) →
          i.error = unpaired_kind (us.getD k 0) ∧ i.error_offset = 2 * k) := by
  refine ⟨(scan_result us).1, (scan_result us).2, utf16be_string_info_eq s us h, ?_, ?_⟩
  · rw [scan_result_invalid_bytes, unpaired_count_eq_add]
  · intro k hk hu hj
    exact scan_result_error_first us k hk hu hj

theorem utf16be_string_info_invalid_bytes_witness :
    ∃ r i, utf16be_string_info [0xdc, 0x00, 0x00, 0x41, 0xd8, 0x00, 0xd8, 0x01, 0, 0]
        = some (r, i)
      ∧ i.invalid_bytes
          = 2 * ((List.range [0xdc00, 0x41, 0xd800, 0xd801].length).countP
                (unpaired_lead_at [0xdc00, 0x41, 0xd800, 0xd801])
              + (List.range [0xdc00, 0x41, 0xd800, 0xd801].length).countP
                (unpaired_trail_at [0xdc00, 0x41, 0xd800, 0xd801]))
      ∧ (∀ k, k < [0xdc00, 0x41, 0xd800, 0xd801].length →
          unpaired_at [0xdc00, 0x41, 0xd800, 0xd801] k = true →
          (∀ j, j < k → unpaired_at [0xdc00, 0x41, 0xd800, 0xd801] j = false) →
          i.error = unpaired_kind ([0xdc00, 0x41, 0xd800, 0xd801].getD k 0)
            ∧ i.error_offset = 2 * k) :=
  utf16be_string_info_invalid_bytes [0xdc, 0x00, 0x00, 0x41, 0xd8, 0x00, 0xd8, 0x01, 0, 0]
    [0xdc00, 0x41, 0xd800, 0xd801] ⟨by decide, [], rfl⟩

/-! ## Reading the units of a wide-form buffer by index -/

theorem getElem?_wide (us : List Nat) :
    ∀ (k : Nat) (tail : List Nat) (hk : k < us.length),
      (wide us ++ tail)[2 * k]? = some (us[k] / 256)
      ∧ (wide us ++ tail)[2 * k + 1]? = some (us[k] % 256) := by
  induction us with
  | nil => intro k tail hk; simp at hk
  | cons u us ih =>
    intro k tail hk
    cases k with
    | zero => simp [wide]
    | succ k =>
      have h := ih k tail (by simpa using hk)
      have e1 : 2 * (k + 1) = (2 * k + 1) + 1 := by omega
      have e2 : 2 * (k + 1) + 1 = (2 * k + 1 + 1) + 1 := by omega
      simp only [wide, List.cons_append, e1, e2, List.getElem?_cons_succ,
        List.getElem_cons_succ]
      exact h

/-! ## `utf16be_is_gsm_string` -/

theorem utf16be_is_gsm_loop_eq (us tail : List Nat) (hus : ∀ u ∈ us, u < 65536) :
    ∀ (n i : Nat), i + n = us.length →
      utf16be_is_gsm_loop (wide us ++ tail) n i
        = some ((us.drop i).all (fun u => utf16be_is_gsm_codepoint (u / 256) (u % 256))) := by
  intro n
  induction n with
  | zero =>
    intro i hi
    have : us.drop i = [] := List.drop_eq_nil_of_le (by omega)
    simp [utf16be_is_gsm_loop, this]
  | succ n ih =>
    intro i hi
    have hk : i < us.length := by omega
    have hg := getElem?_wide us i tail hk
    have hlt : us[i] < 65536 := hus _ (List.getElem_mem hk)
    have hm : us[i] / 256 % 256 = us[i] / 256 := Nat.mod_eq_of_lt (by omega)
    rw [List.drop_eq_getElem_cons hk, List.all_cons]
    simp only [utf16be_is_gsm_loop, hg.1, hg.2, hm, Nat.mod_mod]
    rw [ih (i + 1) (by omega)]
    cases utf16be_is_gsm_codepoint (us[i] / 256) (us[i] % 256) <;> simp

/-- C4: on a zero-terminated wide-form string `utf16be_is_gsm_string` returns
whether every unit before the terminator passes `utf16be_is_gsm_codepoint`;
so it is true exactly when all units pass, true for the empty string, and
false as soon as one unit fails. -/
theorem utf16be_is_gsm_string_iff (s us : List Nat) (h : ZeroTerminated s us) :
    utf16be_is_gsm_string s
        = some (us.all (fun u => utf16be_is_gsm_codepoint (u / 256) (u % 256)))
      ∧ (utf16be_is_gsm_string s = some true
          ↔ ∀ u ∈ us, utf16be_is_gsm_codepoint (u / 256) (u % 256) = true)
      ∧ (us = [] → utf16be_is_gsm_string s = some true)
      ∧ ((∃ u ∈ us, utf16be_is_gsm_codepoint (u / 256) (u % 256) = false)
          → utf16be_is_gsm_string s = some false) := by
  have hinfo := utf16be_string_info_eq s us h
  obtain ⟨hu, rest, rfl⟩ := h
  have hmain : utf16be_is_gsm_string (wide us ++ 0 :: 0 :: rest)
      = some (us.all (fun u => utf16be_is_gsm_codepoint (u / 256) (u % 256))) := by
    simp only [utf16be_is_gsm_string, hinfo, scan_result_units]
    have := utf16be_is_gsm_loop_eq us (0 :: 0 :: rest) (fun u hx => (hu u hx).2) us.length 0
      (by omega)
    simpa using this
  refine ⟨hmain, ?_, ?_, ?_⟩
  · rw [hmain]; simp [List.all_eq_true]
  · intro he; rw [hmain, he]; rfl
  · rintro ⟨u, hmem, hf⟩
    rw [hmain]
    congr 1
    rw [List.all_eq_false]
    exact ⟨u, hmem, by simp [hf]⟩

theorem utf16be_is_gsm_string_iff_witness :
    utf16be_is_gsm_string [0x00, 0x41, 0x20, 0xac, 0x00, 0x60, 0, 0]
        = some ([0x41, 0x20ac, 0x60].all
            (fun u => utf16be_is_gsm_codepoint (u / 256) (u % 256)))
      ∧ (utf16be_is_gsm_string [0x00, 0x41, 0x20, 0xac, 0x00, 0x60, 0, 0] = some true
          ↔ ∀ u ∈ [0x41, 0x20ac, 0x60], utf16be_is_gsm_codepoint (u / 256) (u % 256) = true)
      ∧ ([0x41, 0x20ac, 0x60] = [] →
          utf16be_is_gsm_string [0x00, 0x41, 0x20, 0xac, 0x00, 0x60, 0, 0] = some true)
      ∧ ((∃ u ∈ [0x41, 0x20ac, 0x60], utf16be_is_gsm_codepoint (u / 256) (u % 256) = false)
          → utf16be_is_gsm_string [0x00, 0x41, 0x20, 0xac, 0x00, 0x60, 0, 0] = some false) :=
  utf16be_is_gsm_string_iff [0x00, 0x41, 0x20, 0xac, 0x00, 0x60, 0, 0] [0x41, 0x20ac, 0x60]
    ⟨by decide, [], rfl⟩

/-! ## `utf16be_is_gsm_codepoint` -/

set_option maxRecDepth 1000000 in
theorem gsm_ascii : ∀ lsb, lsb < 256 →
    (0x20 ≤ lsb ∧ lsb ≤ 0x5f) ∨ (0x61 ≤ lsb ∧ lsb ≤ 0x7e) →
    utf16be_is_gsm_codepoint 0x00 lsb = true := by
  decide!

set_option maxRecDepth 1000000 in
theorem gsm_plane_00 : ∀ lsb, lsb < 256 →
    (utf16be_is_gsm_codepoint 0x00 lsb = true ↔ 0x00 * 256 + lsb ∈ gsm0338_code_points) := by
  decide!

set_option maxRecDepth 1000000 in
theorem gsm_plane_03 : ∀ lsb, lsb < 256 →
    (utf16be_is_gsm_codepoint 0x03 lsb = true ↔ 0x03 * 256 + lsb ∈ gsm0338_code_points) := by
  decide!

set_option maxRecDepth 1000000 in
theorem gsm_plane_20 : ∀ lsb, lsb < 256 →
    (utf16be_is_gsm_codepoint 0x20 lsb = true ↔ 0x20 * 256 + lsb ∈ gsm0338_code_points) := by
  decide!

theorem gsm_other_plane (msb lsb : Nat) (h0 : msb ≠ 0x00) (h3 : msb ≠ 0x03)
    (h20 : msb ≠ 0x20) : utf16be_is_gsm_codepoint msb lsb = false := by
  unfold utf16be_is_gsm_codepoint
  split <;> simp_all

set_option maxRecDepth 1000000 in
theorem gsm0338_code_points_plane :
    ∀ c ∈ gsm0338_code_points, c / 256 = 0x00 ∨ c / 256 = 0x03 ∨ c / 256 = 0x20 := by
  decide!

/-- C5: for all `uint8_t` arguments `utf16be_is_gsm_codepoint(msb, lsb)` is
true exactly when the code point `msb * 256 + lsb` is one of the listed GSM
03.38 code points; U+0000, U+0060, U+007F and U+00C7 are rejected. -/
theorem utf16be_is_gsm_codepoint_iff (msb lsb : Nat) (hm : msb < 256) (hl : lsb < 256) :
    (utf16be_is_gsm_codepoint msb lsb = true ↔ msb * 256 + lsb ∈ gsm0338_code_points)
      ∧ utf16be_is_gsm_codepoint 0x00 0x00 = false
      ∧ utf16be_is_gsm_codepoint 0x00 0x60 = false
      ∧ utf16be_is_gsm_codepoint 0x00 0x7f = false
      ∧ utf16be_is_gsm_codepoint 0x00 0xc7 = false := by
  refine ⟨?_, by decide, by decide, by decide, by decide⟩
  by_cases h0 : msb = 0x00
  · subst h0; exact gsm_plane_00 lsb hl
  by_cases h3 : msb = 0x03
  · subst h3; exact gsm_plane_03 lsb hl
  by_cases h20 : msb = 0x20
  · subst h20; exact gsm_plane_20 lsb hl
  rw [gsm_other_plane msb lsb h0 h3 h20]
  constructor
  · intro h; exact absurd h (by decide)
  · intro h
    have hp := gsm0338_code_points_plane _ h
    have hd : (msb * 256 + lsb) / 256 = msb := by omega
    rw [hd] at hp
    omega

theorem utf16be_is_gsm_codepoint_iff_witness :
    (utf16be_is_gsm_codepoint 0x03 0xa9 = true ↔ 0x03 * 256 + 0xa9 ∈ gsm0338_code_points)
      ∧ utf16be_is_gsm_codepoint 0x00 0x00 = false
      ∧ utf16be_is_gsm_codepoint 0x00 0x60 = false
      ∧ utf16be_is_gsm_codepoint 0x00 0x7f = false
      ∧ utf16be_is_gsm_codepoint 0x00 0xc7 = false :=
  utf16be_is_gsm_codepoint_iff 0x03 0xa9 (by decide) (by decide)

/-- C6: `utf16be_is_gsm_codepoint` accepts every character with `msb` 0x00
and `lsb` in 0x20-0x5F or 0x61-0x7E, and for an `msb` other than 0x00 and 0x03
it accepts the pair (0x20, 0xAC) and nothing else. -/
theorem utf16be_is_gsm_codepoint_ascii_and_planes (msb lsb : Nat) :
    ((0x20 ≤ lsb ∧ lsb ≤ 0x5f) ∨ (0x61 ≤ lsb ∧ lsb ≤ 0x7e)
        → utf16be_is_gsm_codepoint 0x00 lsb = true)
      ∧ (msb ≠ 0x00 → msb ≠ 0x03 →
          (utf16be_is_gsm_codepoint msb lsb = true ↔ msb = 0x20 ∧ lsb = 0xac)) := by
  constructor
  · intro h
    have hl : lsb < 256 := by omega
    exact gsm_ascii lsb hl h
  · intro h0 h3
    by_cases h20 : msb = 0x20
    · subst h20
      simp [utf16be_is_gsm_codepoint]
    · rw [gsm_other_plane msb lsb h0 h3 h20]
      simp [h20]

theorem utf16be_is_gsm_codepoint_ascii_and_planes_witness :
    utf16be_is_gsm_codepoint 0x00 0x41 = true
      ∧ (utf16be_is_gsm_codepoint 0x20 0xac = true ↔ 0x20 = 0x20 ∧ 0xac = 0xac) :=
  ⟨(utf16be_is_gsm_codepoint_ascii_and_planes 0x20 0x41).1 (by decide),
   (utf16be_is_gsm_codepoint_ascii_and_planes 0x20 0xac).2 (by decide) (by decide)⟩

/-! ## `utf8_string_info` -/

theorem utf8_scan_loop_cons_cons (c d : Nat) (p : List Nat) (i : string_info_t) (hc : c ≠ 0) :
    utf8_scan_loop (c :: d :: p) i
      = utf8_scan_loop (d :: p)
          { (if d &&& 0xc0 ≠ 0x80 then
              { i with symbols := i.symbols + 1, units := i.units + 1 } else i) with
            bytes := (if d &&& 0xc0 ≠ 0x80 then
              { i with symbols := i.symbols + 1, units := i.units + 1 } else i).bytes + 1 } := by
  conv_lhs => rw [utf8_scan_loop]
  simp only [hc, if_false]

/-- What the loop of `utf8_string_info` computes on the bytes `bs` followed by
the terminator: it counts the bytes of `bs`, and as units and symbols the
non-continuation bytes among the bytes after the first one, terminator
included. -/
theorem utf8_scan_loop_eq (bs : List Nat) :
    ∀ (rest : List Nat) (i : string_info_t), (∀ b ∈ bs, b ≠ 0) →
      utf8_scan_loop (bs ++ 0 :: rest) i
        = some { i with
            bytes := i.bytes + bs.length
            units := i.units + non_continuation_count (bs ++ [0]).tail
            symbols := i.symbols + non_continuation_count (bs ++ [0]).tail } := by
  induction bs with
  | nil => intro rest i _; simp [utf8_scan_loop, non_continuation_count]
  | cons b t ih =>
    intro rest i hb
    have hb0 : b ≠ 0 := hb b (List.mem_cons_self b t)
    have ht : ∀ x ∈ t, x ≠ 0 := fun x hx => hb x (List.mem_cons_of_mem b hx)
    cases t with
    | nil =>
      have h0 : (0 &&& 0xc0 : Nat) ≠ 0x80 := by decide
      simp [utf8_scan_loop, hb0, non_continuation_count]
    | cons d t =>
      have hrec := ih rest
      simp only [List.cons_append] at hrec ⊢
      rw [utf8_scan_loop_cons_cons b d _ i hb0, hrec _ ht]
      simp only [List.tail_cons, non_continuation_count, List.countP_cons, List.length_cons]
      by_cases hd : d &&& 0xc0 ≠ 0x80
      · simp only [hd, ne_eq, not_false_eq_true, if_true, decide_True]
        congr 1
        simp only [string_info_t.mk.injEq]
        refine ⟨by omega, by omega, by omega, trivial, trivial, trivial⟩
      · simp only [hd, if_false, decide_False]
        congr 1
        simp only [string_info_t.mk.injEq]
        refine ⟨by omega, by simp, by simp, trivial, trivial, trivial⟩

/-- The result of `utf8_string_info` on a zero-terminated byte buffer. -/
theorem utf8_string_info_eq (bs rest : List Nat) (hb : ∀ b ∈ bs, b ≠ 0) :
    utf8_string_info (bs ++ 0 :: rest)
      = some (true,
          { bytes := bs.length
            units := non_continuation_count (bs ++ [0]).tail
            symbols := non_continuation_count (bs ++ [0]).tail
            error_offset := 0
            invalid_bytes := 0
            error := D_ERR_NONE }) := by
  rw [utf8_string_info, utf8_scan_loop_eq bs rest string_info_init hb]
  simp [string_info_init]

/-- C10 (the code departs from the claim): on the zero-terminated buffer
`[0x80, 0x00]`, whose only byte before the terminator is a continuation byte,
`utf8_string_info` sets `units` and `symbols` to 1, while the number of bytes
before the terminator that are not continuation bytes is 0. -/
theorem utf8_string_info_leading_continuation :
    utf8_string_info [0x80, 0x00]
        = some (true, { bytes := 1, units := 1, symbols := 1, error_offset := 0,
                        invalid_bytes := 0, error := D_ERR_NONE })
      ∧ non_continuation_count [0x80] = 0 := by
  decide

/-! ## `utf16be_encode_json_utf8` -/

theorem wide_append (xs ys : List Nat) : wide (xs ++ ys) = wide xs ++ wide ys := by
  induction xs with
  | nil => rfl
  | cons x xs ih => simp [wide, ih]

theorem json_escape_lt (l : Nat) : json_escape l < 0x80 := by
  unfold json_escape
  split <;> simp

/-- The reshape loop writes, for every unit, the bytes of `reshape_unit`. -/
theorem utf16be_reshape_loop_eq (us tail : List Nat) :
    ∀ (n i : Nat) (b : List Nat), i + n = us.length →
      utf16be_reshape_loop (wide us ++ tail) n i b
        = some (b ++ wide ((us.drop i).flatMap reshape_unit)) := by
  intro n
  induction n with
  | zero =>
    intro i b hi
    have : us.drop i = [] := List.drop_eq_nil_of_le (by omega)
    simp [utf16be_reshape_loop, this, wide]
  | succ n ih =>
    intro i b hi
    have hk : i < us.length := by omega
    have hg := getElem?_wide us i tail hk
    rw [List.drop_eq_getElem_cons hk, List.flatMap_cons, wide_append]
    simp only [utf16be_reshape_loop, hg.1, hg.2]
    have he := json_escape_lt (us[i] % 256)
    by_cases hm : us[i] / 256 = 0
    · by_cases hesc : json_escape (us[i] % 256) = 0
      · simp only [hm, hesc, if_true, ne_eq, not_true_eq_false, if_false]
        rw [ih (i + 1) _ (by omega)]
        simp [reshape_unit, hm, hesc, wide]
      · simp only [hm, hesc, if_true, ne_eq, not_false_eq_true]
        rw [ih (i + 1) _ (by omega)]
        have h1 : json_escape (us[i] % 256) / 256 = 0 := by omega
        have h2 : json_escape (us[i] % 256) % 256 = json_escape (us[i] % 256) := by omega
        simp [reshape_unit, hm, hesc, wide, h1, h2]
    · simp only [hm, if_false]
      rw [ih (i + 1) _ (by omega)]
      simp [reshape_unit, hm, wide]

/-- The scratch buffer at the call of `convert_utf8_utf16be`. -/
theorem utf16be_reshape_eq (us tail : List Nat) :
    utf16be_reshape (wide us ++ tail) us.length
      = some (wide (us.flatMap reshape_unit) ++ [0, 0]) := by
  rw [utf16be_reshape, utf16be_reshape_loop_eq us tail us.length 0 [] (by omega)]
  simp

theorem iconv_utf16be_to_utf8_ascii (us : List Nat) (h : ∀ u ∈ us, u < 0x80) :
    iconv_utf16be_to_utf8 (wide us) = some us := by
  induction us with
  | nil => rfl
  | cons u us ih =>
    have hu : u < 0x80 := h u (List.mem_cons_self u us)
    have ih2 := ih (fun x hx => h x (List.mem_cons_of_mem u hx))
    have e : u / 256 * 256 + u % 256 = u := by omega
    have h1 : u < 0xd800 ∨ u > 0xdfff := by omega
    rw [wide]
    unfold iconv_utf16be_to_utf8
    simp only [e, h1, if_true, ih2, utf8_encode, hu]
    rfl

theorem reshape_unit_ascii : ∀ u, u < 0x80 →
    reshape_unit u = json_escaped_bytes u ∧ ∀ x ∈ reshape_unit u, x < 0x80 ∧ (0 < u → 0 < x) := by
  decide

theorem flatMap_reshape_unit_ascii (us : List Nat) (h : ∀ u ∈ us, 0 < u ∧ u < 0x80) :
    us.flatMap reshape_unit = us.flatMap json_escaped_bytes
      ∧ ∀ x ∈ us.flatMap reshape_unit, 0 < x ∧ x < 0x80 := by
  induction us with
  | nil => simp
  | cons u us ih =>
    have hu := h u (List.mem_cons_self u us)
    have ih2 := ih (fun x hx => h x (List.mem_cons_of_mem u hx))
    have hr := reshape_unit_ascii u hu.2
    simp only [List.flatMap_cons, List.mem_append]
    refine ⟨by rw [hr.1, ih2.1], ?_⟩
    rintro x (hx | hx)
    · exact ⟨(hr.2 x hx).2 hu.1, (hr.2 x hx).1⟩
    · exact ih2.2 x hx

/-- The transcoding of a zero-terminated buffer whose units are all below
0x80: every unit gives the byte of the same value. -/
theorem convert_utf8_utf16be_ascii (rs : List Nat) (h : ∀ x ∈ rs, 0 < x ∧ x < 0x80) :
    convert_utf8_utf16be (wide rs ++ [0, 0]) true = some (rs ++ [0]) := by
  have hz : ZeroTerminated (wide rs ++ [0, 0]) rs :=
    ⟨fun x hx => ⟨(h x hx).1, by have := (h x hx).2; omega⟩, [], rfl⟩
  have hinfo := utf16be_string_info_eq _ _ hz
  have hconv := iconv_utf16be_to_utf8_ascii rs (fun x hx => (h x hx).2)
  have htake : (wide rs ++ [0, 0]).take (2 * rs.length) = wide rs :=
    List.take_left' (length_wide rs)
  simp only [convert_utf8_utf16be, if_true, hinfo, scan_result_units, scan_result_bytes, htake,
    iconv, hconv]
  have hlen : rs.length ≤ 4 * rs.length := by omega
  simp [hlen]

theorem quotes_escaped_json_escaped_bytes (u : Nat) (rest : List Nat) (hu : u < 0x80) :
    quotes_escaped (json_escaped_bytes u ++ rest) = quotes_escaped rest := by
  unfold json_escaped_bytes
  split_ifs with h1 h2 h3 h4 h5 h6
  · simp [quotes_escaped, is_json_escape_letter]
  · simp [quotes_escaped, is_json_escape_letter]
  · simp [quotes_escaped, is_json_escape_letter]
  · simp [quotes_escaped, is_json_escape_letter]
  · simp [quotes_escaped, is_json_escape_letter]
  · rcases h6 with h6 | h6 <;> subst h6 <;> simp [quotes_escaped, is_json_escape_letter]
  · have hm : u % 256 = u := by omega
    have h22 : u ≠ 0x22 := fun e => h6 (Or.inl e)
    have h5c : u ≠ 0x5c := fun e => h6 (Or.inr e)
    rw [hm]
    cases rest with
    | nil => simp [quotes_escaped, h22, h5c]
    | cons d r => simp [quotes_escaped, h22, h5c]

theorem quotes_escaped_flatMap (us : List Nat) (h : ∀ u ∈ us, u < 0x80) :
    quotes_escaped (us.flatMap json_escaped_bytes) = true := by
  induction us with
  | nil => rfl
  | cons u us ih =>
    rw [List.flatMap_cons, quotes_escaped_json_escaped_bytes u _ (h u (List.mem_cons_self u us))]
    exact ih (fun x hx => h x (List.mem_cons_of_mem u hx))

/-- C9: for a zero-terminated wide-form input whose units are all below
0x80, `utf16be_encode_json_utf8` succeeds and returns the bytes that replace
CR, LF, FF, BS, TAB by a backslash and `r`, `n`, `f`, `b`, `t`, a quote or
backslash by a backslash and that character, and any other unit by its low
byte, followed by one zero byte; in these bytes every quote and backslash is
part of an escape. The input `[0x0041, 0]` gives `0x41, 0x00` and the input
`[0x000A, 0]` gives `0x5C, 0x6E, 0x00`. -/
theorem utf16be_encode_json_utf8_ascii (s us : List Nat) (h : ZeroTerminated s us)
    (hascii : ∀ u ∈ us, u < 0x80) :
    utf16be_encode_json_utf8 s = some (us.flatMap json_escaped_bytes ++ [0])
      ∧ quotes_escaped (us.flatMap json_escaped_bytes) = true
      ∧ utf16be_encode_json_utf8 [0x00, 0x41, 0x00, 0x00] = some [0x41, 0x00]
      ∧ utf16be_encode_json_utf8 [0x00, 0x0a, 0x00, 0x00] = some [0x5c, 0x6e, 0x00] := by
  refine ⟨?_, quotes_escaped_flatMap us hascii, by decide, by decide⟩
  have hinfo := utf16be_string_info_eq s us h
  obtain ⟨hu, rest, rfl⟩ := h
  have hr := flatMap_reshape_unit_ascii us (fun u hx => ⟨(hu u hx).1, hascii u hx⟩)
  simp only [utf16be_encode_json_utf8, hinfo, scan_result_units, utf16be_reshape_eq]
  rw [convert_utf8_utf16be_ascii _ hr.2, hr.1]

theorem utf16be_encode_json_utf8_ascii_witness :
    utf16be_encode_json_utf8 [0x00, 0x22, 0x00, 0x41, 0x00, 0x5c, 0x00, 0x09, 0, 0]
        = some ([0x22, 0x41, 0x5c, 0x09].flatMap json_escaped_bytes ++ [0])
      ∧ quotes_escaped ([0x22, 0x41, 0x5c, 0x09].flatMap json_escaped_bytes) = true
      ∧ utf16be_encode_json_utf8 [0x00, 0x41, 0x00, 0x00] = some [0x41, 0x00]
      ∧ utf16be_encode_json_utf8 [0x00, 0x0a, 0x00, 0x00] = some [0x5c, 0x6e, 0x00] :=
  utf16be_encode_json_utf8_ascii [0x00, 0x22, 0x00, 0x41, 0x00, 0x5c, 0x00, 0x09, 0, 0]
    [0x22, 0x41, 0x5c, 0x09] ⟨by decide, [], rfl⟩ (by decide)

/-- C1 (the code departs from the claim): on the zero-terminated input
`[0x0001, 0]` the reshape pass copies the unit unchanged, and
`utf16be_encode_json_utf8` succeeds and returns the raw control character
0x01, so the returned bytes are not valid as the interior of a JSON string. -/
theorem utf16be_encode_json_utf8_raw_control :
    utf16be_reshape [0x00, 0x01, 0x00, 0x00] 1 = some [0x00, 0x01, 0x00, 0x00]
      ∧ utf16be_encode_json_utf8 [0x00, 0x01, 0x00, 0x00] = some [0x01, 0x00]
      ∧ json_string_safe [0x01] = false := by
  decide

/-! ## Every buffer with a zero unit is a zero-terminated string -/

/-- A buffer of bytes that holds a zero unit at some unit index is a
zero-terminated wide-form string: its units before the first zero unit are
non-zero 16-bit values. -/
theorem zeroTerminated_of_zero_unit (n : Nat) :
    ∀ (s : List Nat), (∀ b ∈ s, b < 256) → s[2 * n]? = some 0 → s[2 * n + 1]? = some 0 →
      ∃ us, ZeroTerminated s us := by
  induction n with
  | zero =>
    intro s _ h0 h1
    match s, h0, h1 with
    | b0 :: b1 :: rest, h0, h1 =>
      simp at h0 h1
      subst h0; subst h1
      exact ⟨[], by simp, rest, rfl⟩
  | succ n ih =>
    intro s hb h0 h1
    match s, hb, h0, h1 with
    | [], _, h0, _ => simp at h0
    | [_], _, h0, _ =>
      rw [show 2 * (n + 1) = (2 * n + 1) + 1 by omega] at h0
      simp at h0
    | b0 :: b1 :: rest, hb, h0, h1 =>
      by_cases hz : b0 = 0 ∧ b1 = 0
      · obtain ⟨rfl, rfl⟩ := hz
        exact ⟨[], by simp, rest, rfl⟩
      · have e1 : 2 * (n + 1) = (2 * n + 1) + 1 := by omega
        have e2 : 2 * (n + 1) + 1 = (2 * n + 1 + 1) + 1 := by omega
        rw [e1] at h0
        rw [e2] at h1
        simp only [List.getElem?_cons_succ] at h0 h1
        have hb0 : b0 < 256 := hb b0 (by simp)
        have hb1 : b1 < 256 := hb b1 (by simp)
        obtain ⟨us, hus, tail, rfl⟩ := ih rest (fun b hx => hb b (by simp [hx])) h0 h1
        refine ⟨(b0 * 256 + b1) :: us, ?_, tail, ?_⟩
        · intro u hu
          rcases List.mem_cons.1 hu with rfl | hu
          · constructor <;> omega
          · exact hus u hu
        · have d1 : (b0 * 256 + b1) / 256 = b0 := by omega
          have d2 : (b0 * 256 + b1) % 256 = b1 := by omega
          simp [wide, d1, d2]

/-! ## The final subtraction does not underflow -/

/-- Invariant of the scan: a recorded unmatched-surrogate error has an offset
of at least one unit, and while a lead is pending at least one unit has been
counted. -/
theorem scan_unit_offset_ge (b : Bool) (i : string_info_t) (v : Nat)
    (h1 : i.error = D_ERR_UNMATCHED_SURROGATE → 2 ≤ i.error_offset)
    (h2 : b = true → 2 ≤ i.bytes) :
    ((scan_unit b i v).2.error = D_ERR_UNMATCHED_SURROGATE → 2 ≤ (scan_unit b i v).2.error_offset)
      ∧ ((scan_unit b i v).1 = true → 2 ≤ (scan_unit b i v).2.bytes) := by
  refine ⟨?_, fun _ => by rw [scan_unit_bytes]; omega⟩
  by_cases he : i.error = D_ERR_NONE
  · cases b with
    | true =>
      rcases Bool.eq_false_or_eq_true (is_trail_surrogate v) with ht | ht
      · have hn := scan_unit_error_none true i v he ht.symm
        intro hx; rw [hn] at hx; exact absurd hx (by decide)
      · have hs := scan_unit_error_unmatched i v he ht
        intro _; rw [hs.2]; exact h2 rfl
    | false =>
      rcases Bool.eq_false_or_eq_true (is_trail_surrogate v) with ht | ht
      · have hs := scan_unit_error_unexpected i v he ht
        intro hx; rw [hs.1] at hx; exact absurd hx (by decide)
      · have hn := scan_unit_error_none false i v he ht.symm
        intro hx; rw [hn] at hx; exact absurd hx (by decide)
  · have hs := scan_unit_error_of_ne b i v he
    rw [hs.1, hs.2]; exact h1

theorem scan_units_offset_ge (us : List Nat) :
    ∀ (b : Bool) (i : string_info_t),
      (i.error = D_ERR_UNMATCHED_SURROGATE → 2 ≤ i.error_offset) → (b = true → 2 ≤ i.bytes) →
      ((scan_units us b i).2.error = D_ERR_UNMATCHED_SURROGATE
          → 2 ≤ (scan_units us b i).2.error_offset)
        ∧ ((scan_units us b i).1 = true → 2 ≤ (scan_units us b i).2.bytes) := by
  induction us with
  | nil => intro b i h1 h2; exact ⟨h1, h2⟩
  | cons u us ih =>
    intro b i h1 h2
    have hs := scan_unit_offset_ge b i u h1 h2
    exact ih _ _ hs.1 hs.2

/-- When `utf16be_string_info` subtracts 2 from `error_offset`, the offset is
at least 2: the subtraction on `size_t` does not wrap around. -/
theorem scan_finished_no_underflow (us : List Nat) :
    (scan_finished_record (scan_units us false string_info_init).1
        (scan_units us false string_info_init).2).error = D_ERR_UNMATCHED_SURROGATE →
    2 ≤ (scan_finished_record (scan_units us false string_info_init).1
        (scan_units us false string_info_init).2).error_offset := by
  have hinv := scan_units_offset_ge us false string_info_init
    (fun h => absurd h (by decide)) (fun h => absurd h (by decide))
  generalize scan_units us false string_info_init = st at hinv ⊢
  obtain ⟨b, i⟩ := st
  cases b with
  | false => exact hinv.1
  | true =>
    simp only [scan_finished_record, if_true]
    by_cases he : i.error = D_ERR_NONE
    · have hr := record_error_of_none i D_ERR_UNMATCHED_SURROGATE he
      intro _; rw [hr.2]; exact hinv.2 rfl
    · have hr := record_error_of_ne i D_ERR_UNMATCHED_SURROGATE he
      rw [hr.1, hr.2]; exact hinv.1

/-! ## `error` is set exactly when invalid bytes have been counted -/

theorem record_error_error_ne (i : string_info_t) (e : string_decode_error_t)
    (he : e ≠ D_ERR_NONE) : (record_error i e).error ≠ D_ERR_NONE := by
  by_cases h : i.error = D_ERR_NONE
  · rw [(record_error_of_none i e h).1]; exact he
  · rw [(record_error_of_ne i e h).1]; exact h

theorem scan_unit_error_iff (b : Bool) (i : string_info_t) (v : Nat)
    (h : i.error = D_ERR_NONE ↔ i.invalid_bytes = 0) :
    (scan_unit b i v).2.error = D_ERR_NONE ↔ (scan_unit b i v).2.invalid_bytes = 0 := by
  have r1 := record_error_error_ne i D_ERR_UNMATCHED_SURROGATE (by decide)
  have r2 := record_error_error_ne i D_ERR_UNEXPECTED_SURROGATE (by decide)
  rcases surrogate_cases v with ⟨h1, h2, h3⟩ | ⟨h1, h2, h3⟩ | ⟨h1, h2, h3⟩ <;> cases b <;>
    simp [scan_unit_false, scan_unit_true_trail, scan_unit_true_other, scan_fresh_regular,
      scan_fresh_lead, scan_fresh_trail, h1, h2, h3, scan_done, h, r1, r2]

theorem scan_units_error_iff (us : List Nat) :
    ∀ (b : Bool) (i : string_info_t), (i.error = D_ERR_NONE ↔ i.invalid_bytes = 0) →
      ((scan_units us b i).2.error = D_ERR_NONE ↔ (scan_units us b i).2.invalid_bytes = 0) := by
  induction us with
  | nil => intro b i h; exact h
  | cons u us ih => intro b i h; exact ih _ _ (scan_unit_error_iff b i u h)

theorem scan_finished_error_iff (b : Bool) (i : string_info_t)
    (h : i.error = D_ERR_NONE ↔ i.invalid_bytes = 0) :
    (scan_finished b i).2.error = D_ERR_NONE ↔ (scan_finished b i).2.invalid_bytes = 0 := by
  rw [scan_finished_error, scan_finished_invalid_bytes]
  cases b with
  | false => simpa [scan_finished_record] using h
  | true =>
    have r1 := record_error_error_ne i D_ERR_UNMATCHED_SURROGATE (by decide)
    simp [scan_finished_record, r1]

theorem scan_result_error_iff (us : List Nat) :
    (scan_result us).2.error = D_ERR_NONE ↔ (scan_result us).2.invalid_bytes = 0 :=
  scan_finished_error_iff _ _
    (scan_units_error_iff us false string_info_init (by simp [string_info_init]))

/-! ## Symbols and invalid units are distinct units -/

theorem scan_units_counts (us : List Nat) :
    ∀ (b : Bool) (i : string_info_t),
      2 * i.symbols + i.invalid_bytes + 2 * (if b then 1 else 0) ≤ 2 * i.units →
      2 * (scan_units us b i).2.symbols + (scan_units us b i).2.invalid_bytes
          + 2 * (if (scan_units us b i).1 then 1 else 0) ≤ 2 * (scan_units us b i).2.units := by
  induction us with
  | nil => intro b i h; exact h
  | cons u us ih =>
    intro b i h
    apply ih
    rw [scan_unit_symbols, scan_unit_invalid_bytes, scan_unit_units, scan_unit_fst]
    rcases surrogate_cases u with ⟨h1, h2, h3⟩ | ⟨h1, h2, h3⟩ | ⟨h1, h2, h3⟩ <;> cases b <;>
      simp [h1, h2, h3] at h ⊢ <;> omega

theorem scan_result_counts (us : List Nat) :
    2 * (scan_result us).2.symbols + (scan_result us).2.invalid_bytes
      ≤ 2 * (scan_result us).2.units := by
  have h := scan_units_counts us false string_info_init (by simp [string_info_init])
  rw [scan_result, scan_finished_symbols, scan_finished_invalid_bytes, scan_finished_units,
    scan_finished_record_invalid_bytes]
  omega

/-! ## Strings without surrogates -/

theorem unpaired_at_of_not_surrogate (us : List Nat) (k : Nat)
    (h : is_surrogate (us.getD k 0) = false) : unpaired_at us k = false := by
  simp only [unpaired_at, unpaired_surrogate]
  rcases surrogate_cases (us.getD k 0) with ⟨_, h2, h3⟩ | ⟨h1, _, _⟩ | ⟨h1, _, _⟩
  · rw [h2, h3]; rfl
  · rw [h] at h1; exact absurd h1 (by decide)
  · rw [h] at h1; exact absurd h1 (by decide)

theorem getD_not_surrogate (us : List Nat) (h : ∀ u ∈ us, is_surrogate u = false) (k : Nat) :
    is_surrogate (us.getD k 0) = false := by
  by_cases hk : k < us.length
  · rw [List.getD_eq_getElem us 0 hk]; exact h _ (List.getElem_mem hk)
  · rw [List.getD_eq_default us 0 (by omega)]; decide

theorem unpaired_count_of_no_surrogate (us : List Nat) (h : ∀ u ∈ us, is_surrogate u = false) :
    unpaired_count us = 0 := by
  rw [unpaired_count, List.countP_eq_zero]
  intro k _
  rw [unpaired_at_of_not_surrogate us k (getD_not_surrogate us h k)]
  decide

theorem pair_count_of_no_surrogate (us : List Nat) (h : ∀ u ∈ us, is_surrogate u = false) :
    pair_count us = 0 := by
  rw [pair_count, List.countP_eq_zero]
  intro k _
  have hs := getD_not_surrogate us h k
  rcases surrogate_cases (us.getD k 0) with ⟨_, h2, _⟩ | ⟨h1, _, _⟩ | ⟨h1, _, _⟩
  · rw [pair_at, h2]; simp
  · rw [hs] at h1; exact absurd h1 (by decide)
  · rw [hs] at h1; exact absurd h1 (by decide)

theorem countP_not_surrogate_of_no_surrogate (us : List Nat)
    (h : ∀ u ∈ us, is_surrogate u = false) :
    us.countP (fun u => !is_surrogate u) = us.length := by
  rw [List.countP_eq_length]
  intro u hu
  simp [h u hu]

/-! ## Further claims on `utf16be_string_info` -/

/-- C11 (counterexample): on the zero-terminated buffer whose only unit is the
lone trail surrogate 0xDC00, `utf16be_string_info` sets `units = 1` and
`bytes = 2`, although the unit is recorded as invalid and no unit is valid. -/
theorem utf16be_string_info_units_lone_trail :
    utf16be_string_info [0xdc, 0x00, 0x00, 0x00]
        = some (false, { bytes := 2, units := 1, symbols := 0, error_offset := 0,
                         invalid_bytes := 2, error := D_ERR_UNEXPECTED_SURROGATE })
      ∧ unpaired_at [0xdc00] 0 = true
      ∧ valid_unit_count [0xdc00] = 0
      ∧ ¬ (∀ r i, utf16be_string_info [0xdc, 0x00, 0x00, 0x00] = some (r, i) →
            i.units = valid_unit_count [0xdc00] ∧ i.bytes = 2 * i.units) := by
  refine ⟨by decide, by decide, by decide, ?_⟩
  intro h
  have h1 := (h false ⟨2, 1, 0, 0, 2, D_ERR_UNEXPECTED_SURROGATE⟩ (by decide)).1
  revert h1
  decide

/-- C11 (amended): on a zero-terminated wide-form buffer `units` is the number
of all units before the terminator, unpaired surrogates included, and `bytes`
is twice `units`. -/
theorem utf16be_string_info_units_all (s us : List Nat) (h : ZeroTerminated s us) :
    ∃ r i, utf16be_string_info s = some (r, i)
      ∧ i.units = us.length ∧ i.bytes = 2 * i.units := by
  refine ⟨(scan_result us).1, (scan_result us).2, utf16be_string_info_eq s us h,
    scan_result_units us, ?_⟩
  rw [scan_result_bytes, scan_result_units]

theorem utf16be_string_info_units_all_witness :
    ∃ r i, utf16be_string_info [0xdc, 0x00, 0x00, 0x41, 0xd8, 0x00, 0, 0] = some (r, i)
      ∧ i.units = [0xdc00, 0x41, 0xd800].length ∧ i.bytes = 2 * i.units :=
  utf16be_string_info_units_all [0xdc, 0x00, 0x00, 0x41, 0xd8, 0x00, 0, 0]
    [0xdc00, 0x41, 0xd800] ⟨by decide, [], rfl⟩

/-- C13: on a zero-terminated wide-form string whose units are all outside
0xD800-0xDFFF, `utf16be_string_info` returns true with `symbols = units` and
`error = D_ERR_NONE`. -/
theorem utf16be_string_info_no_surrogate (s us : List Nat) (h : ZeroTerminated s us)
    (hs : ∀ u ∈ us, is_surrogate u = false) :
    ∃ i, utf16be_string_info s = some (true, i)
      ∧ i.symbols = i.units ∧ i.error = D_ERR_NONE := by
  have hinv : (scan_result us).2.invalid_bytes = 0 := by
    rw [scan_result_invalid_bytes, unpaired_count_of_no_surrogate us hs]
  have hfst : (scan_result us).1 = true := by
    rw [scan_result_fst, hinv]; rfl
  refine ⟨(scan_result us).2, ?_, ?_, (scan_result_error_iff us).2 hinv⟩
  · rw [utf16be_string_info_eq s us h, ← hfst]
  · rw [scan_result_symbols, scan_result_units, pair_count_of_no_surrogate us hs,
      countP_not_surrogate_of_no_surrogate us hs]
    rfl

theorem utf16be_string_info_no_surrogate_witness :
    ∃ i, utf16be_string_info [0x00, 0x41, 0x20, 0xac, 0xe0, 0x00, 0, 0] = some (true, i)
      ∧ i.symbols = i.units ∧ i.error = D_ERR_NONE :=
  utf16be_string_info_no_surrogate [0x00, 0x41, 0x20, 0xac, 0xe0, 0x00, 0, 0]
    [0x41, 0x20ac, 0xe000] ⟨by decide, [], rfl⟩ (by decide)

theorem exists_first_unpaired (us : List Nat) (h : unpaired_count us ≠ 0) :
    ∃ k, k < us.length ∧ unpaired_at us k = true ∧ ∀ j, j < k → unpaired_at us j = false := by
  have hex : ∃ k, k < us.length ∧ unpaired_at us k = true := by
    by_contra hne
    apply h
    rw [unpaired_count, List.countP_eq_zero]
    intro k hk hu
    exact hne ⟨k, List.mem_range.1 hk, hu⟩
  refine ⟨Nat.find hex, (Nat.find_spec hex).1, (Nat.find_spec hex).2, ?_⟩
  intro j hj
  have hmin := Nat.find_min hex hj
  have hjl : j < us.length := Nat.lt_trans hj (Nat.find_spec hex).1
  cases hu : unpaired_at us j with
  | false => rfl
  | true => exact absurd ⟨hjl, hu⟩ hmin

theorem is_surrogate_of_unpaired_at (us : List Nat) (k : Nat) (h : unpaired_at us k = true) :
    is_surrogate (us.getD k 0) = true := by
  cases hs : is_surrogate (us.getD k 0) with
  | true => rfl
  | false => rw [unpaired_at_of_not_surrogate us k hs] at h; exact absurd h (by decide)

theorem getElem?_wide_terminator (us rest : List Nat) :
    (wide us ++ 0 :: 0 :: rest)[2 * us.length]? = some 0
      ∧ (wide us ++ 0 :: 0 :: rest)[2 * us.length + 1]? = some 0 := by
  have hl := length_wide us
  constructor
  · rw [List.getElem?_append_right (by omega)]; simp [hl]
  · rw [List.getElem?_append_right (by omega)]; simp [hl]

/-- C18: invariants of every result of `utf16be_string_info` on a
zero-terminated wide-form buffer: `bytes = 2 * units`; `units` is the index of
the first zero unit; `symbols + invalid_bytes / 2 ≤ units`; `error` is
`D_ERR_NONE` exactly when `invalid_bytes = 0`; a recorded error has an even
`error_offset` below `bytes` that points at a surrogate; and at the final
subtraction of 2 the offset is at least 2. -/
theorem utf16be_string_info_invariants (s us : List Nat) (h : ZeroTerminated s us) :
    ∃ r i, utf16be_string_info s = some (r, i)
      ∧ i.bytes = 2 * i.units
      ∧ i.units = us.length
      ∧ (∀ k, k < i.units → ∃ b0 b1, s[2 * k]? = some b0 ∧ s[2 * k + 1]? = some b1
            ∧ utf16be_unit b0 b1 ≠ 0)
      ∧ s[2 * i.units]? = some 0 ∧ s[2 * i.units + 1]? = some 0
      ∧ i.symbols + i.invalid_bytes / 2 ≤ i.units
      ∧ (i.error = D_ERR_NONE ↔ i.invalid_bytes = 0)
      ∧ (i.error ≠ D_ERR_NONE →
          i.error_offset % 2 = 0 ∧ i.error_offset < i.bytes
            ∧ is_surrogate (us.getD (i.error_offset / 2) 0) = true)
      ∧ (∃ b j, utf16be_scan_loop (s.length + 1) s false string_info_init = some (b, j)
          ∧ ((scan_finished_record b j).error = D_ERR_UNMATCHED_SURROGATE
              → 2 ≤ (scan_finished_record b j).error_offset)) := by
  have hinfo := utf16be_string_info_eq s us h
  obtain ⟨hu, rest, rfl⟩ := h
  have hunits := scan_result_units us
  have hbytes := scan_result_bytes us
  have hterm := getElem?_wide_terminator us rest
  refine ⟨(scan_result us).1, (scan_result us).2, hinfo, by rw [hbytes, hunits], hunits,
    ?_, by rw [hunits]; exact hterm.1, by rw [hunits]; exact hterm.2, ?_,
    scan_result_error_iff us, ?_, ?_⟩
  · intro k hk
    rw [hunits] at hk
    have hg := getElem?_wide us k (0 :: 0 :: rest) hk
    have hk2 := hu _ (List.getElem_mem hk)
    refine ⟨_, _, hg.1, hg.2, ?_⟩
    rw [utf16be_unit_wide _ hk2.2]
    omega
  · have := scan_result_counts us
    omega
  · intro hne
    have hinv : (scan_result us).2.invalid_bytes ≠ 0 :=
      fun h0 => hne ((scan_result_error_iff us).2 h0)
    rw [scan_result_invalid_bytes] at hinv
    obtain ⟨k, hk, hunp, hfirst⟩ := exists_first_unpaired us (by omega)
    have he := scan_result_error_first us k hk hunp hfirst
    have hdiv : 2 * k / 2 = k := by omega
    rw [he.2, hbytes, hdiv]
    exact ⟨by omega, by omega, is_surrogate_of_unpaired_at us k hunp⟩
  · have hf : 2 * us.length + 1 ≤ (wide us ++ 0 :: 0 :: rest).length + 1 := by
      simp only [List.length_append, List.length_cons, length_wide]; omega
    exact ⟨_, _, utf16be_scan_loop_fuel us _ rest false string_info_init hu hf,
      scan_finished_no_underflow us⟩

theorem utf16be_string_info_invariants_witness :
    ∃ r i, utf16be_string_info [0x00, 0x41, 0xd8, 0x00, 0xdc, 0x01, 0xd8, 0x02, 0, 0]
        = some (r, i)
      ∧ i.bytes = 2 * i.units
      ∧ i.units = [0x41, 0xd800, 0xdc01, 0xd802].length
      ∧ (∀ k, k < i.units → ∃ b0 b1,
            [0x00, 0x41, 0xd8, 0x00, 0xdc, 0x01, 0xd8, 0x02, 0, 0][2 * k]? = some b0
            ∧ [0x00, 0x41, 0xd8, 0x00, 0xdc, 0x01, 0xd8, 0x02, 0, 0][2 * k + 1]? = some b1
            ∧ utf16be_unit b0 b1 ≠ 0)
      ∧ [0x00, 0x41, 0xd8, 0x00, 0xdc, 0x01, 0xd8, 0x02, 0, 0][2 * i.units]? = some 0
      ∧ [0x00, 0x41, 0xd8, 0x00, 0xdc, 0x01, 0xd8, 0x02, 0, 0][2 * i.units + 1]? = some 0
      ∧ i.symbols + i.invalid_bytes / 2 ≤ i.units
      ∧ (i.error = D_ERR_NONE ↔ i.invalid_bytes = 0)
      ∧ (i.error ≠ D_ERR_NONE →
          i.error_offset % 2 = 0 ∧ i.error_offset < i.bytes
            ∧ is_surrogate ([0x41, 0xd800, 0xdc01, 0xd802].getD (i.error_offset / 2) 0) = true)
      ∧ (∃ b j, utf16be_scan_loop
            ([0x00, 0x41, 0xd8, 0x00, 0xdc, 0x01, 0xd8, 0x02, 0, 0].length + 1)
            [0x00, 0x41, 0xd8, 0x00, 0xdc, 0x01, 0xd8, 0x02, 0, 0] false string_info_init
              = some (b, j)
          ∧ ((scan_finished_record b j).error = D_ERR_UNMATCHED_SURROGATE
              → 2 ≤ (scan_finished_record b j).error_offset)) :=
  utf16be_string_info_invariants [0x00, 0x41, 0xd8, 0x00, 0xdc, 0x01, 0xd8, 0x02, 0, 0]
    [0x41, 0xd800, 0xdc01, 0xd802] ⟨by decide, [], rfl⟩

/-- C20: the scan loop of `utf16be_string_info` terminates on every buffer
that holds a zero unit: with `n` units before the terminator it arrives at
`finished` within `2 * n + 1` iterations, each unit being examined once, or
twice when it is reparsed. -/
theorem utf16be_scan_loop_terminates (s us : List Nat) (h : ZeroTerminated s us) :
    (∀ fuel, 2 * us.length + 1 ≤ fuel →
        utf16be_scan_loop fuel s false string_info_init
          = some (scan_units us false string_info_init))
      ∧ (∃ r i, utf16be_string_info s = some (r, i))
      ∧ (∀ (f u : Nat) (p : List Nat) (b : Bool) (i : string_info_t), 0 < u → u < 65536 →
          ∃ g b2 i2, f ≤ g ∧ utf16be_scan_loop (f + 2) (u / 256 :: u % 256 :: p) b i
            = utf16be_scan_loop g p b2 i2) := by
  have hinfo := utf16be_string_info_eq s us h
  obtain ⟨hu, rest, rfl⟩ := h
  refine ⟨fun fuel hf => utf16be_scan_loop_fuel us fuel rest false string_info_init hu hf,
    ⟨_, _, hinfo⟩, ?_⟩
  intro f u p b i h0 h1
  obtain ⟨g, hg, heq⟩ := utf16be_scan_loop_unit f u p b i h0 h1
  exact ⟨g, _, _, hg, heq⟩

theorem utf16be_scan_loop_terminates_witness :
    (∀ fuel, 2 * [0xd800, 0xd801, 0x41].length + 1 ≤ fuel →
        utf16be_scan_loop fuel [0xd8, 0x00, 0xd8, 0x01, 0x00, 0x41, 0, 0] false string_info_init
          = some (scan_units [0xd800, 0xd801, 0x41] false string_info_init))
      ∧ (∃ r i, utf16be_string_info [0xd8, 0x00, 0xd8, 0x01, 0x00, 0x41, 0, 0] = some (r, i))
      ∧ (∀ (f u : Nat) (p : List Nat) (b : Bool) (i : string_info_t), 0 < u → u < 65536 →
          ∃ g b2 i2, f ≤ g ∧ utf16be_scan_loop (f + 2) (u / 256 :: u % 256 :: p) b i
            = utf16be_scan_loop g p b2 i2) :=
  utf16be_scan_loop_terminates [0xd8, 0x00, 0xd8, 0x01, 0x00, 0x41, 0, 0]
    [0xd800, 0xd801, 0x41] ⟨by decide, [], rfl⟩

/-! ## `utf16be_is_gsm_string` and the scan -/

theorem utf16be_is_gsm_string_eq (s us : List Nat) (h : ZeroTerminated s us) :
    utf16be_is_gsm_string s
      = some (us.all (fun u => utf16be_is_gsm_codepoint (u / 256) (u % 256))) := by
  have hinfo := utf16be_string_info_eq s us h
  obtain ⟨hu, rest, rfl⟩ := h
  simp only [utf16be_is_gsm_string, hinfo, scan_result_units]
  have := utf16be_is_gsm_loop_eq us (0 :: 0 :: rest) (fun u hx => (hu u hx).2) us.length 0
    (by omega)
  simpa using this

theorem gsm_codepoint_plane (u : Nat)
    (h : utf16be_is_gsm_codepoint (u / 256) (u % 256) = true) :
    u / 256 = 0x00 ∨ u / 256 = 0x03 ∨ u / 256 = 0x20 := by
  by_contra hne
  have h0 : u / 256 ≠ 0x00 := fun e => hne (Or.inl e)
  have h3 : u / 256 ≠ 0x03 := fun e => hne (Or.inr (Or.inl e))
  have h20 : u / 256 ≠ 0x20 := fun e => hne (Or.inr (Or.inr e))
  rw [gsm_other_plane _ _ h0 h3 h20] at h
  exact absurd h (by decide)

theorem not_surrogate_of_plane (u : Nat)
    (h : u / 256 = 0x00 ∨ u / 256 = 0x03 ∨ u / 256 = 0x20) : is_surrogate u = false := by
  simp only [is_surrogate, Bool.and_eq_false_iff, decide_eq_false_iff_not]
  omega

/-- C19: when `utf16be_is_gsm_string` returns true on a zero-terminated
wide-form string, no unit of the string is a surrogate, `utf16be_string_info`
returns true on it with `symbols = units`, and every unit has
most-significant byte 0x00, 0x03 or 0x20. -/
theorem utf16be_is_gsm_string_well_formed (s us : List Nat) (h : ZeroTerminated s us)
    (hg : utf16be_is_gsm_string s = some true) :
    (∀ u ∈ us, is_surrogate u = false)
      ∧ WellFormedUtf16 us
      ∧ (∃ i, utf16be_string_info s = some (true, i) ∧ i.symbols = i.units)
      ∧ (∀ u ∈ us, u / 256 = 0x00 ∨ u / 256 = 0x03 ∨ u / 256 = 0x20) := by
  rw [utf16be_is_gsm_string_eq s us h, Option.some.injEq, List.all_eq_true] at hg
  have hplane : ∀ u ∈ us, u / 256 = 0x00 ∨ u / 256 = 0x03 ∨ u / 256 = 0x20 :=
    fun u hu => gsm_codepoint_plane u (hg u hu)
  have hs : ∀ u ∈ us, is_surrogate u = false :=
    fun u hu => not_surrogate_of_plane u (hplane u hu)
  have hinv : (scan_result us).2.invalid_bytes = 0 := by
    rw [scan_result_invalid_bytes, unpaired_count_of_no_surrogate us hs]
  have hfst : (scan_result us).1 = true := by
    rw [scan_result_fst, hinv]; rfl
  refine ⟨hs, (unpaired_count_eq_zero_iff us).1 (unpaired_count_of_no_surrogate us hs),
    ⟨(scan_result us).2, ?_, ?_⟩, hplane⟩
  · rw [utf16be_string_info_eq s us h, ← hfst]
  · rw [scan_result_symbols, scan_result_units, pair_count_of_no_surrogate us hs,
      countP_not_surrogate_of_no_surrogate us hs]
    rfl

theorem utf16be_is_gsm_string_well_formed_witness :
    (∀ u ∈ [0x41, 0x03a9, 0x20ac], is_surrogate u = false)
      ∧ WellFormedUtf16 [0x41, 0x03a9, 0x20ac]
      ∧ (∃ i, utf16be_string_info [0x00, 0x41, 0x03, 0xa9, 0x20, 0xac, 0, 0] = some (true, i)
          ∧ i.symbols = i.units)
      ∧ (∀ u ∈ [0x41, 0x03a9, 0x20ac], u / 256 = 0x00 ∨ u / 256 = 0x03 ∨ u / 256 = 0x20) :=
  utf16be_is_gsm_string_well_formed [0x00, 0x41, 0x03, 0xa9, 0x20, 0xac, 0, 0]
    [0x41, 0x03a9, 0x20ac] ⟨by decide, [], rfl⟩ (by decide)

/-! ## When `error` and `error_offset` are written -/

theorem scan_units_append (pre post : List Nat) :
    ∀ (b : Bool) (i : string_info_t),
      scan_units (pre ++ post) b i
        = scan_units post (scan_units pre b i).1 (scan_units pre b i).2 := by
  induction pre with
  | nil => intro b i; rfl
  | cons u pre ih => intro b i; exact ih _ _

/-- Once an error is recorded, neither the rest of the loop nor the
`record_error` of the final block changes its kind or its offset. -/
theorem scan_units_record_kept (us : List Nat) :
    ∀ (b : Bool) (i : string_info_t), i.error ≠ D_ERR_NONE →
      (scan_finished_record (scan_units us b i).1 (scan_units us b i).2).error = i.error
      ∧ (scan_finished_record (scan_units us b i).1 (scan_units us b i).2).error_offset
          = i.error_offset := by
  induction us with
  | nil =>
    intro b i h
    have hr := record_error_of_ne i D_ERR_UNMATCHED_SURROGATE h
    cases b <;> simp [scan_units, scan_finished_record, hr]
  | cons u us ih =>
    intro b i h
    have hs := scan_unit_error_of_ne b i u h
    have h2 := ih (scan_unit b i u).1 (scan_unit b i u).2 (by rw [hs.1]; exact h)
    simp only [scan_units]
    rw [h2.1, h2.2, hs.1, hs.2]
    exact ⟨rfl, rfl⟩

/-- C16 (counterexample): on the zero-terminated buffer whose only unit is the
lone lead surrogate 0xD800 the loop ends with no error recorded and
`bytes = 2`; the final block records the first error with
`error_offset = bytes = 2` and then changes it: the final `error_offset`
is 0. -/
theorem utf16be_string_info_offset_changed :
    utf16be_scan_loop ([0xd8, 0x00, 0x00, 0x00].length + 1) [0xd8, 0x00, 0x00, 0x00] false
        string_info_init
        = some (true, { bytes := 2, units := 1, symbols := 0, error_offset := 0,
                        invalid_bytes := 0, error := D_ERR_NONE })
      ∧ scan_finished_record true
          { bytes := 2, units := 1, symbols := 0, error_offset := 0,
            invalid_bytes := 0, error := D_ERR_NONE }
        = { bytes := 2, units := 1, symbols := 0, error_offset := 2,
            invalid_bytes := 2, error := D_ERR_UNMATCHED_SURROGATE }
      ∧ utf16be_string_info [0xd8, 0x00, 0x00, 0x00]
        = some (false, { bytes := 2, units := 1, symbols := 0, error_offset := 0,
                         invalid_bytes := 2, error := D_ERR_UNMATCHED_SURROGATE }) := by
  decide

/-- C16 (amended): `record_error` writes `error` and `error_offset` (the
current `bytes`) only when no error is recorded yet, which is when
`invalid_bytes` is still zero, and leaves them unchanged otherwise; an error
recorded after any prefix of the units is still the one held, with the same
offset, when the final block has recorded the pending lead; the final block
then keeps `error` and subtracts 2 from `error_offset` exactly when `error`
is the unmatched-surrogate error. -/
theorem utf16be_string_info_error_written_once (s us : List Nat)
    (h : ZeroTerminated s us) :
    ∃ b j r i, utf16be_scan_loop (s.length + 1) s false string_info_init = some (b, j)
      ∧ utf16be_string_info s = some (r, i)
      ∧ i.error = (scan_finished_record b j).error
      ∧ i.error_offset = (scan_finished_record b j).error_offset
          - (if (scan_finished_record b j).error = D_ERR_UNMATCHED_SURROGATE then 2 else 0)
      ∧ (∀ pre post, us = pre ++ post →
          ((scan_units pre false string_info_init).2.error = D_ERR_NONE
            ↔ (scan_units pre false string_info_init).2.invalid_bytes = 0)
          ∧ ((scan_units pre false string_info_init).2.error ≠ D_ERR_NONE →
              (scan_finished_record b j).error = (scan_units pre false string_info_init).2.error
              ∧ (scan_finished_record b j).error_offset
                  = (scan_units pre false string_info_init).2.error_offset))
      ∧ (∀ (x : string_info_t) (e : string_decode_error_t), x.error = D_ERR_NONE →
          (record_error x e).error = e ∧ (record_error x e).error_offset = x.bytes)
      ∧ (∀ (x : string_info_t) (e : string_decode_error_t), x.error ≠ D_ERR_NONE →
          (record_error x e).error = x.error
            ∧ (record_error x e).error_offset = x.error_offset) := by
  have hinfo := utf16be_string_info_eq s us h
  obtain ⟨hu, rest, rfl⟩ := h
  have hf : 2 * us.length + 1 ≤ (wide us ++ 0 :: 0 :: rest).length + 1 := by
    simp only [List.length_append, List.length_cons, length_wide]; omega
  refine ⟨_, _, _, _, utf16be_scan_loop_fuel us _ rest false string_info_init hu hf, hinfo,
    scan_finished_error _ _, scan_finished_error_offset _ _, ?_,
    record_error_of_none, record_error_of_ne⟩
  intro pre post hus
  refine ⟨scan_units_error_iff pre false string_info_init (by simp [string_info_init]), ?_⟩
  intro hne
  subst hus
  rw [scan_units_append]
  exact scan_units_record_kept post _ _ hne

theorem utf16be_string_info_error_written_once_witness :
    ∃ b j r i, utf16be_scan_loop ([0xd8, 0x00, 0xdc, 0x00, 0xdc, 0x01, 0, 0].length + 1)
          [0xd8, 0x00, 0xdc, 0x00, 0xdc, 0x01, 0, 0] false string_info_init = some (b, j)
      ∧ utf16be_string_info [0xd8, 0x00, 0xdc, 0x00, 0xdc, 0x01, 0, 0] = some (r, i)
      ∧ i.error = (scan_finished_record b j).error
      ∧ i.error_offset = (scan_finished_record b j).error_offset
          - (if (scan_finished_record b j).error = D_ERR_UNMATCHED_SURROGATE then 2 else 0)
      ∧ (∀ pre post, [0xd800, 0xdc00, 0xdc01] = pre ++ post →
          ((scan_units pre false string_info_init).2.error = D_ERR_NONE
            ↔ (scan_units pre false string_info_init).2.invalid_bytes = 0)
          ∧ ((scan_units pre false string_info_init).2.error ≠ D_ERR_NONE →
              (scan_finished_record b j).error = (scan_units pre false string_info_init).2.error
              ∧ (scan_finished_record b j).error_offset
                  = (scan_units pre false string_info_init).2.error_offset))
      ∧ (∀ (x : string_info_t) (e : string_decode_error_t), x.error = D_ERR_NONE →
          (record_error x e).error = e ∧ (record_error x e).error_offset = x.bytes)
      ∧ (∀ (x : string_info_t) (e : string_decode_error_t), x.error ≠ D_ERR_NONE →
          (record_error x e).error = x.error
            ∧ (record_error x e).error_offset = x.error_offset) :=
  utf16be_string_info_error_written_once [0xd8, 0x00, 0xdc, 0x00, 0xdc, 0x01, 0, 0]
    [0xd800, 0xdc00, 0xdc01] ⟨by decide, [], rfl⟩

/-! ## The reshape pass -/

set_option maxRecDepth 1000000 in
theorem reshape_unit_low : ∀ u, u < 256 →
    reshape_unit u = json_reshape_units u
      ∧ ((reshape_unit u = [u] ∧ is_escaped_unit u = false)
        ∨ (reshape_unit u = [0x5c, json_escape (u % 256)] ∧ is_escaped_unit u = true
            ∧ is_surrogate (json_escape (u % 256)) = false ∧ is_surrogate u = false
            ∧ 0 < json_escape (u % 256) ∧ json_escape (u % 256) < 65536)) := by
  decide!

theorem reshape_unit_high (u : Nat) (h : 256 ≤ u) :
    reshape_unit u = [u] ∧ json_reshape_units u = [u] ∧ is_escaped_unit u = false := by
  have hm : u / 256 ≠ 0 := by omega
  refine ⟨by simp [reshape_unit, hm], ?_, ?_⟩
  · unfold json_reshape_units
    split_ifs <;> first | omega | rfl
  · simp only [is_escaped_unit, Bool.or_eq_false_iff, decide_eq_false_iff_not]
    omega

theorem reshape_unit_eq (u : Nat) : reshape_unit u = json_reshape_units u := by
  by_cases h : u < 256
  · exact (reshape_unit_low u h).1
  · rw [(reshape_unit_high u (by omega)).1, (reshape_unit_high u (by omega)).2.1]

theorem flatMap_reshape_unit_eq (us : List Nat) :
    us.flatMap reshape_unit = us.flatMap json_reshape_units := by
  congr 1
  funext u
  exact reshape_unit_eq u

/-- C14: the reshape pass of `utf16be_encode_json_utf8` is a per-unit map: on
a zero-terminated wide-form input, the units written to the scratch buffer
before its terminator are the concatenation over the input units of
`[0x005C, e]` for CR, LF, FF, BS, TAB, backslash, double quote and `[u]` for
any other unit; a unit whose most-significant byte is not zero is never
altered. -/
theorem utf16be_reshape_per_unit (s us : List Nat) (h : ZeroTerminated s us) :
    ∃ r i, utf16be_string_info s = some (r, i)
      ∧ utf16be_reshape s i.units = some (wide (us.flatMap json_reshape_units) ++ [0, 0])
      ∧ (∀ u, u / 256 ≠ 0 → json_reshape_units u = [u]) := by
  have hinfo := utf16be_string_info_eq s us h
  obtain ⟨_, rest, rfl⟩ := h
  refine ⟨(scan_result us).1, (scan_result us).2, hinfo, ?_,
    fun u hu => (reshape_unit_high u (by omega)).2.1⟩
  rw [scan_result_units, utf16be_reshape_eq, flatMap_reshape_unit_eq]

theorem utf16be_reshape_per_unit_witness :
    ∃ r i, utf16be_string_info [0x00, 0x0a, 0x01, 0x0a, 0x00, 0x22, 0x00, 0x41, 0, 0]
        = some (r, i)
      ∧ utf16be_reshape [0x00, 0x0a, 0x01, 0x0a, 0x00, 0x22, 0x00, 0x41, 0, 0] i.units
        = some (wide ([0x0a, 0x010a, 0x22, 0x41].flatMap json_reshape_units) ++ [0, 0])
      ∧ (∀ u, u / 256 ≠ 0 → json_reshape_units u = [u]) :=
  utf16be_reshape_per_unit [0x00, 0x0a, 0x01, 0x0a, 0x00, 0x22, 0x00, 0x41, 0, 0]
    [0x0a, 0x010a, 0x22, 0x41] ⟨by decide, [], rfl⟩

/-- What `reshape_unit` gives: the unit itself, or two units that are not
surrogates in place of a unit that is not a surrogate. -/
theorem reshape_unit_cases (u : Nat) :
    (reshape_unit u = [u] ∧ is_escaped_unit u = false)
    ∨ (∃ e, reshape_unit u = [0x5c, e] ∧ is_escaped_unit u = true ∧ is_surrogate e = false
        ∧ is_surrogate u = false ∧ 0 < e ∧ e < 65536) := by
  by_cases h : u < 256
  · rcases (reshape_unit_low u h).2 with h1 | h1
    · exact Or.inl h1
    · exact Or.inr ⟨_, h1⟩
  · exact Or.inl ⟨(reshape_unit_high u (by omega)).1, (reshape_unit_high u (by omega)).2.2⟩

theorem is_lead_of_not_surrogate (u : Nat) (h : is_surrogate u = false) :
    is_lead_surrogate u = false ∧ is_trail_surrogate u = false := by
  rcases surrogate_cases u with ⟨_, h2, h3⟩ | ⟨h1, _, _⟩ | ⟨h1, _, _⟩
  · exact ⟨h2, h3⟩
  · rw [h] at h1; exact absurd h1 (by decide)
  · rw [h] at h1; exact absurd h1 (by decide)

theorem unpaired_surrogate_of_not_surrogate (p u n : Nat) (h : is_surrogate u = false) :
    unpaired_surrogate p u n = false := by
  have hu := is_lead_of_not_surrogate u h
  rw [unpaired_surrogate, hu.1, hu.2]; rfl

theorem countP_unpaired_from_congr (p q : Nat) (us : List Nat)
    (h : is_lead_surrogate p = is_lead_surrogate q) :
    (List.range us.length).countP (unpaired_from p us)
      = (List.range us.length).countP (unpaired_from q us) := by
  cases us with
  | nil => rfl
  | cons u rest =>
    rw [countP_unpaired_from_cons, countP_unpaired_from_cons]
    simp only [unpaired_surrogate, h]

theorem is_trail_head_flatMap_reshape (us : List Nat) :
    is_trail_surrogate ((us.flatMap reshape_unit).getD 0 0)
      = is_trail_surrogate (us.getD 0 0) := by
  cases us with
  | nil => rfl
  | cons u rest =>
    rw [List.flatMap_cons]
    rcases reshape_unit_cases u with ⟨h1, _⟩ | ⟨e, h1, _, _, hu, _⟩
    · rw [h1]; rfl
    · rw [h1]
      simp only [List.cons_append, List.getD_cons_zero]
      rw [(is_lead_of_not_surrogate u hu).2]
      decide

/-- The reshape pass does not change the number of unpaired surrogates. -/
theorem countP_unpaired_from_flatMap_reshape (us : List Nat) :
    ∀ prev : Nat,
      (List.range (us.flatMap reshape_unit).length).countP
          (unpaired_from prev (us.flatMap reshape_unit))
        = (List.range us.length).countP (unpaired_from prev us) := by
  induction us with
  | nil => intro prev; rfl
  | cons u rest ih =>
    intro prev
    have hhead := is_trail_head_flatMap_reshape rest
    rw [List.flatMap_cons, countP_unpaired_from_cons]
    rcases reshape_unit_cases u with ⟨h1, _⟩ | ⟨e, h1, _, he, hu, _⟩
    · rw [h1]
      simp only [List.singleton_append]
      rw [countP_unpaired_from_cons, ih u]
      simp only [unpaired_surrogate, hhead]
    · rw [h1]
      simp only [List.cons_append, List.nil_append]
      rw [countP_unpaired_from_cons, countP_unpaired_from_cons, ih e,
        unpaired_surrogate_of_not_surrogate _ 0x5c _ (by decide),
        unpaired_surrogate_of_not_surrogate _ e _ he,
        unpaired_surrogate_of_not_surrogate _ u _ hu,
        countP_unpaired_from_congr e u rest
          (by rw [(is_lead_of_not_surrogate e he).1, (is_lead_of_not_surrogate u hu).1])]
      simp

theorem unpaired_count_flatMap_reshape (us : List Nat) :
    unpaired_count (us.flatMap reshape_unit) = unpaired_count us := by
  rw [unpaired_count_eq_from, unpaired_count_eq_from, countP_unpaired_from_flatMap_reshape]

theorem length_flatMap_reshape (us : List Nat) :
    (us.flatMap reshape_unit).length = us.length + us.countP is_escaped_unit := by
  induction us with
  | nil => rfl
  | cons u rest ih =>
    rw [List.flatMap_cons, List.length_append, ih, List.countP_cons, List.length_cons]
    rcases reshape_unit_cases u with ⟨h1, h2⟩ | ⟨e, h1, h2, _⟩ <;>
      rw [h1, h2] <;> simp <;> omega

theorem zeroTerminated_flatMap_reshape (us : List Nat) (hu : ∀ u ∈ us, 0 < u ∧ u < 65536) :
    ∀ x ∈ us.flatMap reshape_unit, 0 < x ∧ x < 65536 := by
  intro x hx
  rw [List.mem_flatMap] at hx
  obtain ⟨u, hmem, hxu⟩ := hx
  rcases reshape_unit_cases u with ⟨h1, _⟩ | ⟨e, h1, _, _, _, he0, he1⟩
  · rw [h1, List.mem_singleton] at hxu
    subst hxu; exact hu _ hmem
  · rw [h1] at hxu
    simp only [List.mem_cons, List.mem_singleton, List.not_mem_nil, or_false] at hxu
    rcases hxu with rfl | rfl
    · decide
    · exact ⟨he0, he1⟩

/-- C17: the reshape pass keeps the buffer in wide form: on a zero-terminated
wide-form input the reshaped buffer holds non-zero units and then its
terminator, `utf16be_string_info` reports on it the units of the input plus
the number of escaped units and the same `invalid_bytes` as on the input, and
so it scans as valid exactly when the input does. -/
theorem utf16be_reshape_keeps_wide_form (s us : List Nat) (h : ZeroTerminated s us) :
    ∃ r i rs r2 i2, utf16be_string_info s = some (r, i)
      ∧ utf16be_reshape s i.units = some (wide rs ++ [0, 0])
      ∧ ZeroTerminated (wide rs ++ [0, 0]) rs
      ∧ utf16be_string_info (wide rs ++ [0, 0]) = some (r2, i2)
      ∧ i2.units = i.units + us.countP is_escaped_unit
      ∧ i2.invalid_bytes = i.invalid_bytes
      ∧ (r2 = true ↔ r = true) := by
  have hinfo := utf16be_string_info_eq s us h
  obtain ⟨hu, rest, rfl⟩ := h
  have hz : ZeroTerminated (wide (us.flatMap reshape_unit) ++ [0, 0])
      (us.flatMap reshape_unit) :=
    ⟨zeroTerminated_flatMap_reshape us hu, [], rfl⟩
  have hinv : (scan_result (us.flatMap reshape_unit)).2.invalid_bytes
      = (scan_result us).2.invalid_bytes := by
    rw [scan_result_invalid_bytes, scan_result_invalid_bytes, unpaired_count_flatMap_reshape]
  refine ⟨(scan_result us).1, (scan_result us).2, us.flatMap reshape_unit,
    (scan_result (us.flatMap reshape_unit)).1, (scan_result (us.flatMap reshape_unit)).2,
    hinfo, ?_, hz, utf16be_string_info_eq _ _ hz, ?_, hinv, ?_⟩
  · rw [scan_result_units, utf16be_reshape_eq]
  · rw [scan_result_units, scan_result_units, length_flatMap_reshape]
  · rw [scan_result_fst, scan_result_fst, hinv]

theorem utf16be_reshape_keeps_wide_form_witness :
    ∃ r i rs r2 i2, utf16be_string_info [0x00, 0x0a, 0xd8, 0x00, 0x00, 0x22, 0, 0] = some (r, i)
      ∧ utf16be_reshape [0x00, 0x0a, 0xd8, 0x00, 0x00, 0x22, 0, 0] i.units
          = some (wide rs ++ [0, 0])
      ∧ ZeroTerminated (wide rs ++ [0, 0]) rs
      ∧ utf16be_string_info (wide rs ++ [0, 0]) = some (r2, i2)
      ∧ i2.units = i.units + [0x0a, 0xd800, 0x22].countP is_escaped_unit
      ∧ i2.invalid_bytes = i.invalid_bytes
      ∧ (r2 = true ↔ r = true) :=
  utf16be_reshape_keeps_wide_form [0x00, 0x0a, 0xd8, 0x00, 0x00, 0x22, 0, 0]
    [0x0a, 0xd800, 0x22] ⟨by decide, [], rfl⟩

/-! ## The size of the scratch buffer -/

set_option maxRecDepth 1000000 in
theorem and_c0_ne_80_iff : ∀ b, b < 256 →
    ((b &&& 0xc0 ≠ 0x80) ↔ ¬ (0x80 ≤ b ∧ b < 0xc0)) := by
  decide!

/-- The shape of the UTF-8 form of a scalar value: a first byte that is not a
continuation byte, then at most three continuation bytes; no byte is zero. -/
theorem utf8_encode_shape (c : Nat) (h0 : 0 < c) (h1 : c < 0x110000) :
    ∃ h t, utf8_encode c = h :: t ∧ 0 < h ∧ h < 256 ∧ ¬ (0x80 ≤ h ∧ h < 0xc0)
      ∧ (∀ b ∈ t, 0x80 ≤ b ∧ b < 0xc0) ∧ t.length ≤ 3 ∧ (c < 0x10000 → t.length ≤ 2) := by
  unfold utf8_encode
  split_ifs with c1 c2 c3
  · exact ⟨_, _, rfl, h0, by omega, by omega, by simp, by simp, by simp⟩
  · refine ⟨_, _, rfl, by omega, by omega, by omega, ?_, by simp, by simp⟩
    intro b hb
    simp only [List.mem_singleton] at hb
    omega
  · refine ⟨_, _, rfl, by omega, by omega, by omega, ?_, by simp, by simp⟩
    intro b hb
    simp only [List.mem_cons, List.mem_singleton, List.not_mem_nil, or_false] at hb
    omega
  · refine ⟨_, _, rfl, by omega, by omega, by omega, ?_, by simp, by omega⟩
    intro b hb
    simp only [List.mem_cons, List.mem_singleton, List.not_mem_nil, or_false] at hb
    omega

theorem utf8_is_continuation_of (b : Nat) (h : 0x80 ≤ b ∧ b < 0xc0) :
    utf8_is_continuation b = true := by
  simp only [utf8_is_continuation, Bool.and_eq_true, decide_eq_true_eq]
  exact h

set_option smartUnfolding false in
theorem iconv_utf8_to_utf16be_one (b0 : Nat) (rest : List Nat) (h : b0 < 0x80) :
    iconv_utf8_to_utf16be (b0 :: rest)
      = (iconv_utf8_to_utf16be rest).map (fun t => utf16be_encode b0 ++ t) := by
  show (if b0 < 0x80 then _ else _) = _
  rw [if_pos h]
  rfl

set_option smartUnfolding false in
theorem iconv_utf8_to_utf16be_two (b0 b1 : Nat) (rest : List Nat) (h1 : ¬ b0 < 0x80)
    (h2 : ¬ b0 < 0xc2) (h3 : b0 < 0xe0) (h4 : utf8_is_continuation b1 = true) :
    iconv_utf8_to_utf16be (b0 :: b1 :: rest)
      = (iconv_utf8_to_utf16be rest).map
          (fun t => utf16be_encode ((b0 - 0xc0) * 64 + (b1 - 0x80)) ++ t) := by
  show (if b0 < 0x80 then _ else if b0 < 0xc2 then _ else if b0 < 0xe0 then
    (if utf8_is_continuation b1 = true then _ else _) else _) = _
  rw [if_neg h1, if_neg h2, if_pos h3, if_pos h4]
  rfl

set_option smartUnfolding false in
theorem iconv_utf8_to_utf16be_three (b0 b1 b2 : Nat) (rest : List Nat) (h1 : ¬ b0 < 0x80)
    (h2 : ¬ b0 < 0xc2) (h3 : ¬ b0 < 0xe0) (h4 : b0 < 0xf0)
    (h5 : utf8_is_continuation b1 = true ∧ utf8_is_continuation b2 = true
      ∧ 0x800 ≤ (b0 - 0xe0) * 4096 + (b1 - 0x80) * 64 + (b2 - 0x80)
      ∧ ((b0 - 0xe0) * 4096 + (b1 - 0x80) * 64 + (b2 - 0x80) < 0xd800
        ∨ 0xdfff < (b0 - 0xe0) * 4096 + (b1 - 0x80) * 64 + (b2 - 0x80))) :
    iconv_utf8_to_utf16be (b0 :: b1 :: b2 :: rest)
      = (iconv_utf8_to_utf16be rest).map
          (fun t => utf16be_encode ((b0 - 0xe0) * 4096 + (b1 - 0x80) * 64 + (b2 - 0x80)) ++ t) := by
  show (if b0 < 0x80 then _ else if b0 < 0xc2 then _ else if b0 < 0xe0 then _
    else if b0 < 0xf0 then
      (if utf8_is_continuation b1 = true ∧ utf8_is_continuation b2 = true
          ∧ 0x800 ≤ (b0 - 0xe0) * 4096 + (b1 - 0x80) * 64 + (b2 - 0x80)
          ∧ ((b0 - 0xe0) * 4096 + (b1 - 0x80) * 64 + (b2 - 0x80) < 0xd800
            ∨ 0xdfff < (b0 - 0xe0) * 4096 + (b1 - 0x80) * 64 + (b2 - 0x80)) then _ else _)
    else _) = _
  rw [if_neg h1, if_neg h2, if_neg h3, if_pos h4, if_pos h5]
  rfl

theorem iconv_utf8_to_utf16be_four (b0 b1 b2 b3 : Nat) (rest : List Nat) (h1 : ¬ b0 < 0x80)
    (h2 : ¬ b0 < 0xc2) (h3 : ¬ b0 < 0xe0) (h4 : ¬ b0 < 0xf0) (h4b : b0 < 0xf5)
    (h5 : utf8_is_continuation b1 = true ∧ utf8_is_continuation b2 = true
      ∧ utf8_is_continuation b3 = true
      ∧ 0x10000 ≤ (b0 - 0xf0) * 262144 + (b1 - 0x80) * 4096 + (b2 - 0x80) * 64 + (b3 - 0x80)
      ∧ (b0 - 0xf0) * 262144 + (b1 - 0x80) * 4096 + (b2 - 0x80) * 64 + (b3 - 0x80)
          ≤ 0x10ffff) :
    iconv_utf8_to_utf16be (b0 :: b1 :: b2 :: b3 :: rest)
      = (iconv_utf8_to_utf16be rest).map
          (fun t => utf16be_encode
            ((b0 - 0xf0) * 262144 + (b1 - 0x80) * 4096 + (b2 - 0x80) * 64 + (b3 - 0x80)) ++ t) := by
  have e : iconv_utf8_to_utf16be (b0 :: b1 :: b2 :: b3 :: rest)
      = if b0 < 0x80 then
          (iconv_utf8_to_utf16be (b1 :: b2 :: b3 :: rest)).map
            (fun t => utf16be_encode b0 ++ t)
        else if b0 < 0xc2 then none
        else if b0 < 0xe0 then
          if utf8_is_continuation b1 then
            (iconv_utf8_to_utf16be (b2 :: b3 :: rest)).map
              (fun t => utf16be_encode ((b0 - 0xc0) * 64 + (b1 - 0x80)) ++ t)
          else none
        else if b0 < 0xf0 then
          if utf8_is_continuation b1 ∧ utf8_is_continuation b2
              ∧ 0x800 ≤ (b0 - 0xe0) * 4096 + (b1 - 0x80) * 64 + (b2 - 0x80)
              ∧ ((b0 - 0xe0) * 4096 + (b1 - 0x80) * 64 + (b2 - 0x80) < 0xd800
                ∨ 0xdfff < (b0 - 0xe0) * 4096 + (b1 - 0x80) * 64 + (b2 - 0x80)) then
            (iconv_utf8_to_utf16be (b3 :: rest)).map
              (fun t => utf16be_encode
                ((b0 - 0xe0) * 4096 + (b1 - 0x80) * 64 + (b2 - 0x80)) ++ t)
          else none
        else if b0 < 0xf5 then
          if utf8_is_continuation b1 ∧ utf8_is_continuation b2 ∧ utf8_is_continuation b3
              ∧ 0x10000 ≤ (b0 - 0xf0) * 262144 + (b1 - 0x80) * 4096 + (b2 - 0x80) * 64
                  + (b3 - 0x80)
              ∧ (b0 - 0xf0) * 262144 + (b1 - 0x80) * 4096 + (b2 - 0x80) * 64 + (b3 - 0x80)
                  ≤ 0x10ffff then
            (iconv_utf8_to_utf16be rest).map
              (fun t => utf16be_encode
                ((b0 - 0xf0) * 262144 + (b1 - 0x80) * 4096 + (b2 - 0x80) * 64
                  + (b3 - 0x80)) ++ t)
          else none
        else none := by
    rfl
  rw [e, if_neg h1, if_neg h2, if_neg h3, if_neg h4, if_pos h4b, if_pos h5]

/-- Decoding the UTF-8 form of a scalar value gives the scalar value back. -/
theorem iconv_utf8_to_utf16be_encode (c : Nat) (rest : List Nat) (h1 : c < 0x110000)
    (hs : c < 0xd800 ∨ 0xdfff < c) :
    iconv_utf8_to_utf16be (utf8_encode c ++ rest)
      = (iconv_utf8_to_utf16be rest).map (fun t => utf16be_encode c ++ t) := by
  unfold utf8_encode
  split_ifs with c1 c2 c3
  · exact iconv_utf8_to_utf16be_one c rest c1
  · have a5 : (0xc0 + c / 64 - 0xc0) * 64 + (0x80 + c % 64 - 0x80) = c := by omega
    have := iconv_utf8_to_utf16be_two (0xc0 + c / 64) (0x80 + c % 64) rest (by omega)
      (by omega) (by omega) (utf8_is_continuation_of _ (by omega))
    rw [a5] at this
    exact this
  · have a7 : (0xe0 + c / 4096 - 0xe0) * 4096 + (0x80 + c / 64 % 64 - 0x80) * 64
        + (0x80 + c % 64 - 0x80) = c := by omega
    have := iconv_utf8_to_utf16be_three (0xe0 + c / 4096) (0x80 + c / 64 % 64) (0x80 + c % 64)
      rest (by omega) (by omega) (by omega) (by omega)
      ⟨utf8_is_continuation_of _ (by omega), utf8_is_continuation_of _ (by omega),
        by rw [a7]; omega, by rw [a7]; exact hs⟩
    rw [a7] at this
    exact this
  · have a7 : (0xf0 + c / 262144 - 0xf0) * 262144 + (0x80 + c / 4096 % 64 - 0x80) * 4096
        + (0x80 + c / 64 % 64 - 0x80) * 64 + (0x80 + c % 64 - 0x80) = c := by omega
    have := iconv_utf8_to_utf16be_four (0xf0 + c / 262144) (0x80 + c / 4096 % 64)
      (0x80 + c / 64 % 64) (0x80 + c % 64) rest (by omega) (by omega) (by omega) (by omega)
      (by omega)
      ⟨utf8_is_continuation_of _ (by omega), utf8_is_continuation_of _ (by omega),
        utf8_is_continuation_of _ (by omega), by rw [a7]; omega, by rw [a7]; omega⟩
    rw [a7] at this
    exact this

theorem utf16be_encode_bmp (c : Nat) (h : c < 0x10000) :
    utf16be_encode c = [c / 256, c % 256] := by
  simp [utf16be_encode, h]

/-- The scalar value of a surrogate pair. -/
theorem utf16be_encode_pair (l t : Nat) (hl : is_lead_surrogate l = true)
    (ht : is_trail_surrogate t = true) :
    utf16be_encode (0x10000 + (l - 0xd800) * 1024 + (t - 0xdc00))
        = [l / 256, l % 256, t / 256, t % 256]
      ∧ 0x10000 ≤ 0x10000 + (l - 0xd800) * 1024 + (t - 0xdc00)
      ∧ 0x10000 + (l - 0xd800) * 1024 + (t - 0xdc00) < 0x110000 := by
  simp only [is_lead_surrogate, is_trail_surrogate, Bool.and_eq_true, decide_eq_true_eq] at hl ht
  have h1 : ¬ (0x10000 + (l - 0xd800) * 1024 + (t - 0xdc00) < 0x10000) := by omega
  have h2 : 0xd800 + (0x10000 + (l - 0xd800) * 1024 + (t - 0xdc00) - 0x10000) / 1024 = l := by
    omega
  have h3 : 0xdc00 + (0x10000 + (l - 0xd800) * 1024 + (t - 0xdc00) - 0x10000) % 1024 = t := by
    omega
  refine ⟨?_, by omega, by omega⟩
  simp only [utf16be_encode, h1, if_false, h2, h3]

theorem iconv_utf16be_to_utf8_regular (u : Nat) (p : List Nat) (h : u < 65536)
    (hs : is_surrogate u = false) :
    iconv_utf16be_to_utf8 (u / 256 :: u % 256 :: p)
      = (iconv_utf16be_to_utf8 p).map (fun t => utf8_encode u ++ t) := by
  simp only [is_surrogate, Bool.and_eq_false_iff, decide_eq_false_iff_not] at hs
  have e : u / 256 * 256 + u % 256 = u := by omega
  have h1 : u < 0xd800 ∨ u > 0xdfff := by omega
  conv_lhs => unfold iconv_utf16be_to_utf8
  simp only [e, h1, if_true]

theorem iconv_utf16be_to_utf8_pair (l t : Nat) (p : List Nat)
    (hl : is_lead_surrogate l = true) (ht : is_trail_surrogate t = true) :
    iconv_utf16be_to_utf8 (l / 256 :: l % 256 :: t / 256 :: t % 256 :: p)
      = (iconv_utf16be_to_utf8 p).map
          (fun r => utf8_encode (0x10000 + (l - 0xd800) * 1024 + (t - 0xdc00)) ++ r) := by
  simp only [is_lead_surrogate, is_trail_surrogate, Bool.and_eq_true, decide_eq_true_eq] at hl ht
  have e1 : l / 256 * 256 + l % 256 = l := by omega
  have e2 : t / 256 * 256 + t % 256 = t := by omega
  have h1 : ¬ (l < 0xd800 ∨ l > 0xdfff) := by omega
  have h2 : l < 0xdc00 := by omega
  have h3 : 0xdc00 ≤ t ∧ t ≤ 0xdfff := by omega
  conv_lhs => unfold iconv_utf16be_to_utf8
  simp only [e1, e2, h1, h2, h3, if_true, if_false, and_self]

theorem non_continuation_count_append (xs ys : List Nat) :
    non_continuation_count (xs ++ ys)
      = non_continuation_count xs + non_continuation_count ys := by
  simp [non_continuation_count, List.countP_append]

/-- What the UTF-8 form of a scalar value adds to a byte sequence. -/
theorem utf8_encode_prepend (c : Nat) (out : List Nat) (h0 : 0 < c) (h1 : c < 0x110000)
    (hz : ∀ b ∈ out, b ≠ 0) :
    (∀ b ∈ utf8_encode c ++ out, b ≠ 0)
      ∧ (utf8_encode c ++ out).length ≤ 4 + out.length
      ∧ (c < 0x10000 → (utf8_encode c ++ out).length ≤ 3 + out.length)
      ∧ 1 + non_continuation_count out ≤ non_continuation_count (utf8_encode c ++ out)
      ∧ (∀ h t, utf8_encode c ++ out = h :: t → h &&& 0xc0 ≠ 0x80) := by
  obtain ⟨h, t, he, hpos, hlt, hnc, ht, hlen, hlen2⟩ := utf8_encode_shape c h0 h1
  have hhead : h &&& 0xc0 ≠ 0x80 := (and_c0_ne_80_iff h hlt).2 hnc
  rw [he]
  refine ⟨?_, ?_, ?_, ?_, ?_⟩
  · intro b hb
    rcases List.mem_append.1 hb with hb | hb
    · rcases List.mem_cons.1 hb with rfl | hb
      · omega
      · have := ht b hb; omega
    · exact hz b hb
  · simp only [List.length_append, List.length_cons]; omega
  · intro hc
    have := hlen2 hc
    simp only [List.length_append, List.length_cons]; omega
  · rw [non_continuation_count_append]
    simp only [non_continuation_count, List.countP_cons, hhead, ne_eq, not_false_eq_true,
      decide_True, if_true]
    omega
  · intro h2 t2 heq
    simp only [List.cons_append, List.cons.injEq] at heq
    rw [← heq.1]; exact hhead

/-- The two conversions on a well-formed string: its UTF-8 form decodes back
to the same units, has no zero byte, fits in 4 bytes per unit, and holds at
least one non-continuation byte for every two units. -/
theorem utf8_round_trip_core :
    ∀ (n : Nat) (us : List Nat), us.length ≤ n → (∀ u ∈ us, 0 < u ∧ u < 65536) →
      ∀ prev, is_lead_surrogate prev = false →
      (∀ k, k < us.length → unpaired_from prev us k = false) →
      ∃ out, iconv_utf16be_to_utf8 (wide us) = some out
        ∧ iconv_utf8_to_utf16be out = some (wide us)
        ∧ (∀ b ∈ out, b ≠ 0)
        ∧ out.length ≤ 4 * us.length
        ∧ 2 * us.length ≤ 4 * non_continuation_count out
        ∧ (∀ h t, out = h :: t → h &&& 0xc0 ≠ 0x80) := by
  intro n
  induction n with
  | zero =>
    intro us hlen _ _ _ _
    have hnil : us = [] := List.length_eq_zero.1 (by omega)
    subst hnil
    exact ⟨[], rfl, rfl, by simp, by simp, by simp [non_continuation_count],
      fun h t he => by simp at he⟩
  | succ n ih =>
    intro us hlen hu prev hprev hP
    cases us with
    | nil =>
      exact ⟨[], rfl, rfl, by simp, by simp, by simp [non_continuation_count],
        fun h t he => by simp at he⟩
    | cons u rest =>
      have hu0 := hu u (List.mem_cons_self u rest)
      have hrest : ∀ x ∈ rest, 0 < x ∧ x < 65536 := fun x hx => hu x (List.mem_cons_of_mem u hx)
      have h0 := hP 0 (by simp)
      rw [unpaired_from_zero] at h0
      simp only [unpaired_surrogate, hprev, Bool.not_false, Bool.and_true,
        Bool.or_eq_false_iff, Bool.and_eq_false_iff, Bool.not_eq_false'] at h0
      rcases surrogate_cases u with ⟨h1, h2, h3⟩ | ⟨h1, h2, h3⟩ | ⟨h1, h2, h3⟩
      · -- a regular character
        have hPr : ∀ k, k < rest.length → unpaired_from u rest k = false := by
          intro k hk
          have := hP (k + 1) (by simpa using hk)
          rwa [unpaired_from_succ] at this
        obtain ⟨out, henc, hdec, hz, hl, hc, _⟩ :=
          ih rest (by simp at hlen; omega) hrest u h2 hPr
        have hsc : u < 0xd800 ∨ 0xdfff < u := by
          simp only [is_surrogate, Bool.and_eq_false_iff, decide_eq_false_iff_not] at h1
          omega
        have hpre := utf8_encode_prepend u out hu0.1 (by omega) hz
        refine ⟨utf8_encode u ++ out, ?_, ?_, hpre.1, ?_, ?_, hpre.2.2.2.2⟩
        · rw [wide, iconv_utf16be_to_utf8_regular u _ hu0.2 h1, henc]; rfl
        · rw [iconv_utf8_to_utf16be_encode u out (by omega) hsc, hdec,
            utf16be_encode_bmp u hu0.2]
          rfl
        · have := hpre.2.1
          simp only [List.length_cons]; omega
        · have := hpre.2.2.2.1
          simp only [List.length_cons]; omega
      · -- a lead, followed by a trail
        have hnext : is_trail_surrogate (rest.getD 0 0) = true := by
          rcases h0.1 with h | h
          · rw [h2] at h; exact absurd h (by decide)
          · exact h
        cases rest with
        | nil => exact absurd hnext (by decide)
        | cons t rest2 =>
          rw [List.getD_cons_zero] at hnext
          have ht0 := hrest t (List.mem_cons_self t rest2)
          have hrest2 : ∀ x ∈ rest2, 0 < x ∧ x < 65536 :=
            fun x hx => hrest x (List.mem_cons_of_mem t hx)
          have htl : is_lead_surrogate t = false := by
            rcases surrogate_cases t with ⟨_, a, b⟩ | ⟨_, a, b⟩ | ⟨_, a, b⟩ <;> simp_all
          have hPr : ∀ k, k < rest2.length → unpaired_from t rest2 k = false := by
            intro k hk
            have := hP (k + 2) (by simpa using hk)
            rwa [unpaired_from_succ, unpaired_from_succ] at this
          obtain ⟨out, henc, hdec, hz, hl, hc, _⟩ :=
            ih rest2 (by simp at hlen; omega) hrest2 t htl hPr
          have hpair := utf16be_encode_pair u t h2 hnext
          have hpre := utf8_encode_prepend (0x10000 + (u - 0xd800) * 1024 + (t - 0xdc00)) out
            (by omega) hpair.2.2 hz
          refine ⟨utf8_encode (0x10000 + (u - 0xd800) * 1024 + (t - 0xdc00)) ++ out,
            ?_, ?_, hpre.1, ?_, ?_, hpre.2.2.2.2⟩
          · rw [wide, wide, iconv_utf16be_to_utf8_pair u t _ h2 hnext, henc]; rfl
          · rw [iconv_utf8_to_utf16be_encode _ out hpair.2.2 (Or.inr (by omega)), hdec,
              hpair.1]
            rfl
          · have := hpre.2.1
            simp only [List.length_cons]; omega
          · have := hpre.2.2.2.1
            simp only [List.length_cons]; omega
      · -- a trail without a lead before it
        have h := h0.2
        rw [h3] at h
        exact absurd h (by decide)

theorem non_continuation_count_tail (out : List Nat)
    (hh : ∀ h t, out = h :: t → h &&& 0xc0 ≠ 0x80) :
    non_continuation_count (out ++ [0]).tail = non_continuation_count out := by
  cases out with
  | nil => rfl
  | cons h t =>
    have h1 := hh h t rfl
    have h0 : (0 &&& 0xc0 : Nat) ≠ 0x80 := by decide
    simp only [List.cons_append, List.tail_cons, non_continuation_count_append]
    simp [non_continuation_count, List.countP_cons, h1]

/-- The transcoding of a well-formed string to UTF-8 and back. -/
theorem convert_round_trip (us rest : List Nat) (hu : ∀ u ∈ us, 0 < u ∧ u < 65536)
    (hw : WellFormedUtf16 us) :
    ∃ t, convert_utf8_utf16be (wide us ++ 0 :: 0 :: rest) true = some t
      ∧ convert_utf8_utf16be t false = some (wide us ++ [0, 0]) := by
  have hP : ∀ k, k < us.length → unpaired_from 0 us k = false := by
    intro k hk
    rw [← unpaired_at_eq_from]
    exact (wellFormedUtf16_iff us).1 hw k hk
  obtain ⟨out, henc, hdec, hz, hl, hc, hh⟩ :=
    utf8_round_trip_core us.length us (le_refl _) hu 0 is_lead_surrogate_zero hP
  have hinfo := utf16be_string_info_eq (wide us ++ 0 :: 0 :: rest) us ⟨hu, rest, rfl⟩
  have htake : (wide us ++ 0 :: 0 :: rest).take (2 * us.length) = wide us :=
    List.take_left' (length_wide us)
  refine ⟨out ++ [0], ?_, ?_⟩
  · simp only [convert_utf8_utf16be, if_true, hinfo, scan_result_units, scan_result_bytes,
      htake, iconv, henc, hl]
  · have h8 := utf8_string_info_eq out [] hz
    have htake2 : (out ++ [0]).take out.length = out := List.take_left' rfl
    have hlen : (wide us).length ≤ 4 * non_continuation_count (out ++ [0]).tail := by
      rw [non_continuation_count_tail out hh, length_wide]; exact hc
    simp only [convert_utf8_utf16be, Bool.false_eq_true, if_false, h8, htake2, iconv, hdec,
      hlen, if_true]

/-- C12: round trip. For a zero-terminated wide-form buffer on which
`utf16be_string_info` reports `invalid_bytes = 0`, transcoding to UTF-8
(`reverse = TRUE`) succeeds, and transcoding the result back
(`reverse = FALSE`) succeeds and yields the original units followed by a zero
unit. -/
theorem convert_utf8_utf16be_round_trip (s us : List Nat) (h : ZeroTerminated s us)
    (hv : ∃ r i, utf16be_string_info s = some (r, i) ∧ i.invalid_bytes = 0) :
    ∃ t, convert_utf8_utf16be s true = some t
      ∧ convert_utf8_utf16be t false = some (wide us ++ [0, 0]) := by
  obtain ⟨r, i, hri, hinv⟩ := hv
  rw [utf16be_string_info_eq s us h, Option.some.injEq] at hri
  have hinv2 : (scan_result us).2.invalid_bytes = 0 := by rw [hri]; exact hinv
  rw [scan_result_invalid_bytes] at hinv2
  have hw : WellFormedUtf16 us := (unpaired_count_eq_zero_iff us).1 (by omega)
  obtain ⟨hu, rest, rfl⟩ := h
  exact convert_round_trip us rest hu hw

theorem convert_utf8_utf16be_round_trip_witness :
    ∃ t, convert_utf8_utf16be [0x00, 0x41, 0xd8, 0x3d, 0xde, 0x00, 0x20, 0xac, 0, 0] true
        = some t
      ∧ convert_utf8_utf16be t false = some (wide [0x41, 0xd83d, 0xde00, 0x20ac] ++ [0, 0]) :=
  convert_utf8_utf16be_round_trip [0x00, 0x41, 0xd8, 0x3d, 0xde, 0x00, 0x20, 0xac, 0, 0]
    [0x41, 0xd83d, 0xde00, 0x20ac] ⟨by decide, [], rfl⟩
    ⟨true, ⟨8, 4, 3, 0, 0, D_ERR_NONE⟩, by decide, rfl⟩

end GammuJson
